import Mathlib

/-!
Verification development for the sinewave-speech formant-trajectory
extraction engine (`src/js/phoneme-mapper.js`, `src/js/formant-player.js`).
The JavaScript source is shallowly embedded: float arithmetic is modelled
over `ℚ` where the source only uses field operations and over `ℝ` where
transcendental functions (`cos`, `sqrt`, `log`, `atan2`, `pow`) occur.
-/

namespace SinewaveSpeech

/-! ## Phoneme mapper tables (`src/js/phoneme-mapper.js`)

`PHONEME_FORMANTS`: formant frequency triples `[F1, F2, F3]` per phoneme. -/

def phonemeFormantsTable : List (String × (ℚ × ℚ × ℚ)) :=
  [("IY", (270, 2290, 3010)),
   ("IH", (390, 1990, 2550)),
   ("EH", (530, 1840, 2480)),
   ("AE", (660, 1720, 2410)),
   ("AA", (730, 1090, 2440)),
   ("AO", (570, 840, 2410)),
   ("UH", (440, 1020, 2240)),
   ("UW", (300, 870, 2240)),
   ("AH", (640, 1190, 2390)),
   ("ER", (490, 1350, 1690)),
   ("EY", (450, 2000, 2600)),
   ("AY", (750, 1200, 2600)),
   ("OY", (550, 900, 2500)),
   ("AW", (750, 1200, 2500)),
   ("OW", (500, 900, 2500)),
   ("W", (350, 700, 2400)),
   ("Y", (300, 2200, 3000)),
   ("R", (420, 1300, 1600)),
   ("L", (400, 1100, 2600)),
   ("M", (300, 1200, 2500)),
   ("N", (300, 1700, 2500)),
   ("NG", (350, 2000, 2700)),
   ("V", (300, 1300, 2400)),
   ("DH", (350, 1600, 2600)),
   ("Z", (350, 1800, 2600)),
   ("ZH", (350, 2000, 2600)),
   ("B", (350, 1100, 2400)),
   ("D", (350, 1700, 2600)),
   ("G", (350, 2000, 2600)),
   ("JH", (350, 2200, 2800)),
   ("P", (0, 0, 0)),
   ("T", (0, 0, 0)),
   ("K", (0, 0, 0)),
   ("F", (0, 0, 0)),
   ("TH", (0, 0, 0)),
   ("S", (0, 0, 0)),
   ("SH", (0, 0, 0)),
   ("CH", (0, 0, 0)),
   ("HH", (0, 0, 0)),
   ("SIL", (0, 0, 0))]

/-- Source `FORMANT_AMPLITUDES`: amplitude multipliers for the three formant tiers. -/
def formantAmpF1 : ℚ := 1

/-- Source `FORMANT_AMPLITUDES.F2`. -/
def formantAmpF2 : ℚ := 7/10

/-- Source `FORMANT_AMPLITUDES.F3`. -/
def formantAmpF3 : ℚ := 2/5

/-- Source `LETTER_TO_PHONEME`: single-letter to phoneme map. -/
def letterToPhoneme : List (Char × String) :=
  [('a', "AE"), ('e', "EH"), ('i', "IH"), ('o', "AA"), ('u', "AH"),
   ('b', "B"), ('c', "K"), ('d', "D"), ('f', "F"), ('g', "G"),
   ('h', "HH"), ('j', "JH"), ('k', "K"), ('l', "L"), ('m', "M"),
   ('n', "N"), ('p', "P"), ('q', "K"), ('r', "R"), ('s', "S"),
   ('t', "T"), ('v', "V"), ('w', "W"), ('x', "K"), ('y', "Y"), ('z', "Z")]

/-- Source `DIGRAPH_TO_PHONEME`: digraph/trigraph patterns to phonemes. -/
def digraphToPhoneme : List (String × String) :=
  [("th", "TH"), ("sh", "SH"), ("ch", "CH"), ("ng", "NG"), ("wh", "W"),
   ("ph", "F"), ("ck", "K"), ("ee", "IY"), ("ea", "IY"), ("oo", "UW"),
   ("ou", "AW"), ("ow", "OW"), ("oi", "OY"), ("oy", "OY"), ("ai", "EY"),
   ("ay", "EY"), ("ie", "IY"), ("igh", "AY"), ("au", "AO"), ("aw", "AO"),
   ("er", "ER"), ("ir", "ER"), ("ur", "ER"), ("or", "AO"), ("ar", "AA")]

/-- Source `WORD_PRONUNCIATIONS`: whole-word pronunciation dictionary. -/
def wordPronunciations : List (String × List String) :=
  [("the", ["DH", "AH"]),
   ("a", ["AH"]),
   ("an", ["AE", "N"]),
   ("is", ["IH", "Z"]),
   ("are", ["AA", "R"]),
   ("was", ["W", "AH", "Z"]),
   ("were", ["W", "ER"]),
   ("where", ["W", "EH", "R"]),
   ("what", ["W", "AH", "T"]),
   ("when", ["W", "EH", "N"]),
   ("why", ["W", "AY"]),
   ("how", ["HH", "AW"]),
   ("you", ["Y", "UW"]),
   ("your", ["Y", "AO", "R"]),
   ("year", ["Y", "IH", "R"]),
   ("ago", ["AH", "G", "OW"]),
   ("to", ["T", "UW"]),
   ("do", ["D", "UW"]),
   ("go", ["G", "OW"]),
   ("no", ["N", "OW"]),
   ("so", ["S", "OW"]),
   ("of", ["AH", "V"]),
   ("for", ["F", "AO", "R"]),
   ("with", ["W", "IH", "TH"]),
   ("this", ["DH", "IH", "S"]),
   ("that", ["DH", "AE", "T"]),
   ("have", ["HH", "AE", "V"]),
   ("has", ["HH", "AE", "Z"]),
   ("had", ["HH", "AE", "D"]),
   ("be", ["B", "IY"]),
   ("been", ["B", "IH", "N"]),
   ("will", ["W", "IH", "L"]),
   ("would", ["W", "UH", "D"]),
   ("could", ["K", "UH", "D"]),
   ("should", ["SH", "UH", "D"]),
   ("can", ["K", "AE", "N"]),
   ("from", ["F", "R", "AH", "M"]),
   ("they", ["DH", "EY"]),
   ("their", ["DH", "EH", "R"]),
   ("there", ["DH", "EH", "R"]),
   ("here", ["HH", "IH", "R"]),
   ("hello", ["HH", "AH", "L", "OW"]),
   ("world", ["W", "ER", "L", "D"]),
   ("speech", ["S", "P", "IY", "CH"]),
   ("sound", ["S", "AW", "N", "D"]),
   ("hear", ["HH", "IH", "R"]),
   ("listen", ["L", "IH", "S", "AH", "N"]),
   ("voice", ["V", "OY", "S"]),
   ("say", ["S", "EY"]),
   ("said", ["S", "EH", "D"]),
   ("word", ["W", "ER", "D"]),
   ("words", ["W", "ER", "D", "Z"]),
   ("one", ["W", "AH", "N"]),
   ("two", ["T", "UW"]),
   ("three", ["TH", "R", "IY"]),
   ("i", ["AY"]),
   ("my", ["M", "AY"]),
   ("me", ["M", "IY"]),
   ("we", ["W", "IY"]),
   ("he", ["HH", "IY"]),
   ("she", ["SH", "IY"]),
   ("it", ["IH", "T"]),
   ("not", ["N", "AA", "T"]),
   ("don't", ["D", "OW", "N", "T"]),
   ("know", ["N", "OW"]),
   ("think", ["TH", "IH", "NG", "K"]),
   ("like", ["L", "AY", "K"]),
   ("just", ["JH", "AH", "S", "T"]),
   ("time", ["T", "AY", "M"]),
   ("good", ["G", "UH", "D"]),
   ("new", ["N", "UW"]),
   ("first", ["F", "ER", "S", "T"]),
   ("last", ["L", "AE", "S", "T"]),
   ("long", ["L", "AO", "NG"]),
   ("great", ["G", "R", "EY", "T"]),
   ("little", ["L", "IH", "T", "AH", "L"]),
   ("own", ["OW", "N"]),
   ("other", ["AH", "DH", "ER"]),
   ("old", ["OW", "L", "D"]),
   ("right", ["R", "AY", "T"]),
   ("big", ["B", "IH", "G"]),
   ("high", ["HH", "AY"]),
   ("small", ["S", "M", "AO", "L"]),
   ("next", ["N", "EH", "K", "S", "T"]),
   ("early", ["ER", "L", "IY"]),
   ("young", ["Y", "AH", "NG"]),
   ("few", ["F", "Y", "UW"]),
   ("bad", ["B", "AE", "D"]),
   ("same", ["S", "EY", "M"]),
   ("quick", ["K", "W", "IH", "K"]),
   ("brown", ["B", "R", "AW", "N"]),
   ("fox", ["F", "AA", "K", "S"])]

/-! ## Phoneme mapper functions (`PhonemeMapper`) -/

/-- A phoneme together with its duration in seconds (`{phoneme, duration}`). -/
structure PhonemeUnit where
  phoneme : String
  duration : ℚ
deriving DecidableEq, Repr

/-- Source `PhonemeMapper.getPhonemeDuration`: fixed duration by phonetic class. -/
def getPhonemeDuration (phoneme : String) : ℚ :=
  if ["IY", "IH", "EH", "AE", "AA", "AO", "UH", "UW", "AH", "ER",
      "EY", "AY", "OY", "AW", "OW"].contains phoneme then 1/10
  else if ["M", "N", "NG", "L", "R", "W", "Y"].contains phoneme then 7/100
  else if ["V", "DH", "Z", "ZH", "B", "D", "G", "JH"].contains phoneme then 1/20
  else 1/25

/-- Source `PhonemeMapper.wordToPhonemes`: greedy trigraph/digraph/single-letter
substitution over a word's letters, longest match first. -/
def wordToPhonemes : List Char → List PhonemeUnit
  | [] => []
  | [c1] =>
    match letterToPhoneme.lookup c1 with
    | some p => [⟨p, getPhonemeDuration p⟩]
    | none => []
  | [c1, c2] =>
    match digraphToPhoneme.lookup (String.mk [c1, c2]) with
    | some p => [⟨p, getPhonemeDuration p⟩]
    | none =>
      match letterToPhoneme.lookup c1 with
      | some p => ⟨p, getPhonemeDuration p⟩ :: wordToPhonemes [c2]
      | none => wordToPhonemes [c2]
  | c1 :: c2 :: c3 :: rest =>
    match digraphToPhoneme.lookup (String.mk [c1, c2, c3]) with
    | some p => ⟨p, getPhonemeDuration p⟩ :: wordToPhonemes rest
    | none =>
      match digraphToPhoneme.lookup (String.mk [c1, c2]) with
      | some p => ⟨p, getPhonemeDuration p⟩ :: wordToPhonemes (c3 :: rest)
      | none =>
        match letterToPhoneme.lookup c1 with
        | some p => ⟨p, getPhonemeDuration p⟩ :: wordToPhonemes (c2 :: c3 :: rest)
        | none => wordToPhonemes (c2 :: c3 :: rest)
termination_by l => l.length

/-- Characters kept by the `replace(non-word, non-space, non-apostrophe)`
preprocessing step of `textToPhonemes`. -/
def keepChar (c : Char) : Bool :=
  c.isAlphanum || c == '_' || c.isWhitespace || c == '\''

/-- Splitting a character list at whitespace, as `split` on a whitespace
pattern does in the source (an empty input yields one empty word). -/
def splitWs : List Char → List (List Char)
  | [] => [[]]
  | c :: rest =>
    let r := splitWs rest
    if c.isWhitespace then [] :: r
    else (c :: r.headD []) :: r.tail

/-- The per-word loop of `textToPhonemes`: empty words are skipped, words are
resolved through the dictionary first and the letter rules otherwise, and a
60 ms `SIL` unit is appended after every word that is not in last position. -/
def wordsToPhonemes : List (List Char) → List PhonemeUnit
  | [] => []
  | w :: rest =>
    if w.isEmpty then wordsToPhonemes rest
    else
      (match wordPronunciations.lookup (String.mk w) with
       | some pron => pron.map (fun p => ⟨p, getPhonemeDuration p⟩)
       | none => wordToPhonemes w) ++
      (if rest.isEmpty then [] else [⟨"SIL", 3/50⟩]) ++
      wordsToPhonemes rest

/-- Source `PhonemeMapper.textToPhonemes`: lowercase the text, drop characters that
are not word characters, whitespace or apostrophes, split into words, and
resolve each word to phonemes. -/
def textToPhonemes (text : String) : List PhonemeUnit :=
  wordsToPhonemes (splitWs ((text.data.map Char.toLower).filter keepChar))

/-! ## Trajectory data model

A `FormantPoint` is the `{t, freq, amp}` record pushed on each track; a
`Trajectories` value is the `{F1, F2, F3}` triple of track point lists. -/

structure FormantPoint where
  t : ℚ
  freq : ℝ
  amp : ℝ

structure Trajectories where
  F1 : List FormantPoint
  F2 : List FormantPoint
  F3 : List FormantPoint

/-- Source `PhonemeMapper.getFormants`: formant triple of a phoneme, falling back to
the `AH` entry for unknown phonemes (source: `PHONEME_FORMANTS[phoneme] ||
PHONEME_FORMANTS['AH']`). -/
def getFormants (p : String) : ℚ × ℚ × ℚ :=
  match phonemeFormantsTable.lookup p with
  | some f => f
  | none => (phonemeFormantsTable.lookup "AH").getD (0, 0, 0)

/-- JavaScript `x || d` on the (non-negative) formant table values: `0` is
falsy and replaced by the default. -/
def jsOr (x d : ℚ) : ℚ := if x = 0 then d else x

/-- An interpolation target of `phonemesToTrajectory`:
`{time, f1, f2, f3, amp}`. -/
structure PTarget where
  time : ℚ
  f1 : ℚ
  f2 : ℚ
  f3 : ℚ
  amp : ℚ
deriving DecidableEq, Repr

/-- The per-phoneme loop of `phonemesToTrajectory`: one target at the
temporal center of each phoneme, with the running time returned as well. -/
def buildTargetsLoop : List PhonemeUnit → ℚ → List PTarget × ℚ
  | [], t => ([], t)
  | u :: rest, t =>
    let f := getFormants u.phoneme
    let amp : ℚ := if 0 < f.1 then 1 else 0
    let center := t + u.duration / 2
    let (ts, tEnd) := buildTargetsLoop rest (t + u.duration)
    (⟨center, jsOr f.1 400, jsOr f.2.1 1500, jsOr f.2.2 2500, amp⟩ :: ts, tEnd)

/-- The target list of `phonemesToTrajectory`: an initial silence target at
time 0, one target per phoneme starting at 0.02 s, and a final silence target
0.02 s after the last phoneme; total duration is the phoneme end time plus
0.04 s. -/
def buildTargets (phonemes : List PhonemeUnit) : List PTarget × ℚ :=
  let (mids, tEnd) := buildTargetsLoop phonemes (1/50)
  (⟨0, 400, 1500, 2500, 0⟩ :: (mids ++ [⟨tEnd + 1/50, 400, 1500, 2500, 0⟩]),
   tEnd + 1/25)

/-- The target search of the sampling loop: the first adjacent pair with
`prev.time ≤ t < next.time`. -/
def findSurroundAux (t : ℚ) : List PTarget → Option (PTarget × PTarget)
  | a :: b :: rest =>
    if a.time ≤ t ∧ t < b.time then some (a, b) else findSurroundAux t (b :: rest)
  | _ => none

/-- Surrounding targets for time `t`, defaulting to the first and last
targets when no adjacent pair brackets `t` (as the source loop does). -/
def findSurround (targets : List PTarget) (t : ℚ) : PTarget × PTarget :=
  (findSurroundAux t targets).getD
    (targets.headD ⟨0, 0, 0, 0, 0⟩, targets.getLast?.getD ⟨0, 0, 0, 0, 0⟩)

/-- One interpolated sample `{f1, f2, f3, amp}` of the trajectory. -/
structure InterpSample where
  f1 : ℝ
  f2 : ℝ
  f3 : ℝ
  amp : ℝ

/-- The cosine-eased interpolation of the sampling loop at time `t`. -/
noncomputable def interpTargets (targets : List PTarget) (t : ℚ) : InterpSample :=
  let pn := findSurround targets t
  let pv := pn.1
  let nx := pn.2
  let dt := nx.time - pv.time
  let al : ℚ := if 0 < dt then (t - pv.time) / dt else 0
  let s : ℝ := 1/2 - 1/2 * Real.cos ((al : ℝ) * Real.pi)
  ⟨(pv.f1 : ℝ) + s * ((nx.f1 : ℝ) - (pv.f1 : ℝ)),
   (pv.f2 : ℝ) + s * ((nx.f2 : ℝ) - (pv.f2 : ℝ)),
   (pv.f3 : ℝ) + s * ((nx.f3 : ℝ) - (pv.f3 : ℝ)),
   (pv.amp : ℝ) + s * ((nx.amp : ℝ) - (pv.amp : ℝ))⟩

/-- The trajectory produced by the phoneme path: `{duration, formants}`. -/
structure PhonemeTrajectory where
  duration : ℚ
  formants : Trajectories

/-- Source `PhonemeMapper.phonemesToTrajectory`: build targets, then sample every
10 ms with cosine easing, scaling amplitudes by the per-tier weights. -/
noncomputable def phonemesToTrajectory (phonemes : List PhonemeUnit) : PhonemeTrajectory :=
  let tt := buildTargets phonemes
  let targets := tt.1
  let totalDuration := tt.2
  let numSamples := Nat.ceil (totalDuration / (1/100))
  let pts := (List.range (numSamples + 1)).map (fun (i : ℕ) =>
    ((i : ℚ) * (1/100), interpTargets targets ((i : ℚ) * (1/100))))
  { duration := totalDuration,
    formants :=
      { F1 := pts.map (fun p => ⟨p.1, p.2.f1, p.2.amp * (formantAmpF1 : ℝ)⟩),
        F2 := pts.map (fun p => ⟨p.1, p.2.f2, p.2.amp * (formantAmpF2 : ℝ)⟩),
        F3 := pts.map (fun p => ⟨p.1, p.2.f3, p.2.amp * (formantAmpF3 : ℝ)⟩) } }

/-- Source `PhonemeMapper.textToTrajectory`: text to phonemes to trajectory. -/
noncomputable def textToTrajectory (text : String) : PhonemeTrajectory :=
  phonemesToTrajectory (textToPhonemes text)

/-- The running time of the target loop advances by exactly the summed
phoneme durations. -/
theorem buildTargetsLoop_snd (ps : List PhonemeUnit) (t : ℚ) :
    (buildTargetsLoop ps t).2 = t + (ps.map PhonemeUnit.duration).sum := by
  induction ps generalizing t with
  | nil => simp [buildTargetsLoop]
  | cons u rest ih => simp [buildTargetsLoop, ih, add_assoc]

/-- Total duration of the phoneme-path trajectory: the summed phoneme
durations plus 0.06 s (0.02 s leading and 0.04 s trailing silence). -/
theorem phonemesToTrajectory_duration (ps : List PhonemeUnit) :
    (phonemesToTrajectory ps).duration = (ps.map PhonemeUnit.duration).sum + 3/50 := by
  show (buildTargetsLoop ps (1/50)).2 + 1/25 = _
  rw [buildTargetsLoop_snd]
  ring

/-! ## LPC analyzer (`LPCAnalyzer` in `src/js/formant-player.js`)

The analyzer instance used by `generateWithLPC` has `sampleRate = 8000`,
`hopSize = 256`, `windowSize = 512` and `lpcOrder = 12`. -/

def hopSize : ℕ := 256

def windowSize : ℕ := 512

def lpcOrder : ℕ := 12

def analysisRate : ℚ := 8000

/-- Source `LPCAnalyzer.resample`: linear-interpolation resampling; the identity
when the rates agree. -/
def resample (audio : List ℚ) (fromRate toRate : ℚ) : List ℚ :=
  if fromRate = toRate then audio
  else
    let ra := fromRate / toRate
    let outputLength := Nat.floor ((audio.length : ℚ) / ra)
    (List.range outputLength).map (fun i =>
      let srcIdx : ℚ := (i : ℚ) * ra
      let srcFloor := Nat.floor srcIdx
      let srcCeil := min (srcFloor + 1) (audio.length - 1)
      let t := srcIdx - (srcFloor : ℚ)
      audio.getD srcFloor 0 * (1 - t) + audio.getD srcCeil 0 * t)

/-- Source `LPCAnalyzer.preEmphasis`: `y[0] = x[0]`, `y[n] = x[n] - coeff·x[n-1]`. -/
def preEmphasis (audio : List ℚ) (coeff : ℚ) : List ℚ :=
  (List.range audio.length).map (fun i =>
    if i = 0 then audio.getD 0 0
    else audio.getD i 0 - coeff * audio.getD (i - 1) 0)

/-- Source `LPCAnalyzer.createHannWindow`: `0.5·(1 - cos(2πi/(size-1)))`. -/
noncomputable def hannWindow (size i : ℕ) : ℝ :=
  1/2 * (1 - Real.cos (2 * Real.pi * (i : ℝ) / ((size : ℝ) - 1)))

/-- Source `LPCAnalyzer.applyWindow`: multiply the frame by the precomputed Hann
window (up to the shorter of frame and window length; a zero-initialised
output keeps the remaining entries at 0). -/
noncomputable def applyWindow (frame : List ℚ) : List ℝ :=
  (List.range frame.length).map (fun i =>
    if i < min frame.length windowSize then (frame.getD i 0 : ℝ) * hannWindow windowSize i
    else 0)

/-- Source `LPCAnalyzer.autocorrelate`: biased autocorrelation for lags
`0 .. maxLag-1`. -/
noncomputable def autocorrelate (frame : List ℝ) (maxLag : ℕ) : List ℝ :=
  (List.range maxLag).map (fun lag =>
    ((List.range (frame.length - lag)).map (fun i =>
      frame.getD i 0 * frame.getD (i + lag) 0)).sum)

/-- Result of `LPCAnalyzer.levinsonDurbin`: coefficient vector and gain. -/
structure LDResult where
  coeffs : List ℝ
  gain : ℝ

/-- One order of the Levinson-Durbin recursion: reflection coefficient,
coefficient update and error update. -/
noncomputable def ldStep (r : List ℝ) (i : ℕ) (a : List ℝ) (e : ℝ) : List ℝ × ℝ :=
  let lam := (r.getD i 0 -
    ((List.range (i - 1)).map (fun k => a.getD (k + 1) 0 * r.getD (i - (k + 1)) 0)).sum) / e
  let a' := (List.range a.length).map (fun j =>
    if j = i then lam
    else if 1 ≤ j ∧ j < i then a.getD j 0 - lam * a.getD (i - j) 0
    else a.getD j 0)
  (a', e * (1 - lam * lam))

/-- The order loop of `levinsonDurbin`: the first argument counts the
remaining orders (`p` for the full loop `i = 1 .. p`), and the loop halts
early once the updated prediction error is non-positive (the check happens
after the coefficient update, as in the source). -/
noncomputable def ldIter (r : List ℝ) : ℕ → ℕ → List ℝ → ℝ → List ℝ × ℝ
  | 0, _, a, e => (a, e)
  | n + 1, i, a, e =>
    let ae := ldStep r i a e
    if ae.2 ≤ 0 then ae else ldIter r n (i + 1) ae.1 ae.2

/-- Source `LPCAnalyzer.levinsonDurbin` for order `p`: early return with zero gain
and identity coefficients on a near-silent frame, otherwise the order
recursion for `i = 1 .. p` with gain `sqrt(max(e, 0))`. -/
noncomputable def levinsonDurbin (p : ℕ) (r : List ℝ) : LDResult :=
  let a0 : List ℝ := 1 :: List.replicate p 0
  if r.getD 0 0 < 1e-10 then ⟨a0, 0⟩
  else
    let ae := ldIter r p 1 a0 (r.getD 0 0)
    ⟨ae.1, Real.sqrt (max ae.2 0)⟩

/-- The step `ldStep` preserves the coefficient vector length. -/
theorem ldStep_length (r : List ℝ) (i : ℕ) (a : List ℝ) (e : ℝ) :
    (ldStep r i a e).1.length = a.length := by
  simp [ldStep]

/-- The step `ldStep` never touches coefficient 0 for orders `i ≥ 1`. -/
theorem ldStep_getD_zero (r : List ℝ) (i : ℕ) (a : List ℝ) (e : ℝ)
    (hi : 1 ≤ i) (ha : a.length ≠ 0) :
    (ldStep r i a e).1.getD 0 0 = a.getD 0 0 := by
  have h0 : 0 < a.length := Nat.pos_of_ne_zero ha
  simp only [ldStep, List.getD_eq_getElem?_getD]
  rw [List.getElem?_map, List.getElem?_range h0]
  rw [Option.map_some', Option.getD_some,
    if_neg (by omega : ¬ (0 : ℕ) = i), if_neg (by omega : ¬ (1 ≤ 0 ∧ 0 < i))]

/-- The order loop preserves length and coefficient 0. -/
theorem ldIter_invariant (r : List ℝ) (n : ℕ) :
    ∀ (i : ℕ) (a : List ℝ) (e : ℝ), 1 ≤ i → a.length ≠ 0 →
    (ldIter r n i a e).1.length = a.length ∧
    (ldIter r n i a e).1.getD 0 0 = a.getD 0 0 := by
  induction n with
  | zero => intro i a e _ _; exact ⟨rfl, rfl⟩
  | succ n ih =>
    intro i a e hi ha
    rw [ldIter]
    by_cases hstop : (ldStep r i a e).2 ≤ 0
    · simp only [hstop, if_true]
      exact ⟨ldStep_length r i a e, ldStep_getD_zero r i a e hi ha⟩
    · simp only [hstop, if_false]
      have hlen := ldStep_length r i a e
      have hz := ldStep_getD_zero r i a e hi ha
      have h2 := ih (i + 1) (ldStep r i a e).1 (ldStep r i a e).2 (by omega)
        (by rw [hlen]; exact ha)
      exact ⟨h2.1.trans hlen, h2.2.trans hz⟩

/-! ## Polynomial root solver (`findPolynomialRoots`, `computeEigenvalues`)

Matrices are embedded as functions `ℕ → ℕ → ℝ`; the solver only reads and
writes entries below the active dimension. -/

/-- A complex root `{real, imag}`. -/
structure CRoot where
  re : ℝ
  im : ℝ

/-- Square matrix as an entry function. -/
def Mat : Type := ℕ → ℕ → ℝ

/-- Source `LPCAnalyzer.wilkinsonShift`: eigenvalue of the trailing 2×2 block
closest to the last diagonal entry (the raw top-left entry for `m < 2`). -/
noncomputable def wilkinsonShift (H : Mat) (m : ℕ) : ℝ :=
  if m < 2 then H 0 0
  else
    let a := H (m - 2) (m - 2)
    let b := H (m - 2) (m - 1)
    let c := H (m - 1) (m - 2)
    let d := H (m - 1) (m - 1)
    let tr := a + d
    let det := a * d - b * c
    let disc := tr * tr - 4 * det
    if 0 ≤ disc then
      let sq := Real.sqrt disc
      let e1 := (tr + sq) / 2
      let e2 := (tr - sq) / 2
      if |e1 - d| < |e2 - d| then e1 else e2
    else tr / 2

/-- One Givens row rotation of the QR step: returns the updated matrix and
the `(cos, sin)` pair, with the `r < 1e-15` degeneracy guard. -/
noncomputable def qrRowRot (H : Mat) (m i : ℕ) : Mat × ℝ × ℝ :=
  let a := H i i
  let b := H (i + 1) i
  let rr := Real.sqrt (a * a + b * b)
  let c := if rr < 1e-15 then 1 else a / rr
  let s := if rr < 1e-15 then 0 else b / rr
  (fun p q =>
    if q < m ∧ p = i then c * H i q + s * H (i + 1) q
    else if q < m ∧ p = i + 1 then -s * H i q + c * H (i + 1) q
    else H p q, c, s)

/-- The corresponding Givens column rotation (second loop of the QR step). -/
noncomputable def qrColRot (H : Mat) (m i : ℕ) (c s : ℝ) : Mat :=
  fun p q =>
    if p < m ∧ q = i then c * H p i + s * H p (i + 1)
    else if p < m ∧ q = i + 1 then -s * H p i + c * H p (i + 1)
    else H p q

/-- Source `LPCAnalyzer.qrStep`: subtract the shift from the active diagonal,
apply the row rotations for `i = 0 .. m-2` (recording `(cos, sin)`), apply
the matching column rotations, and re-add the shift. -/
noncomputable def qrStep (H : Mat) (m : ℕ) (shift : ℝ) : Mat :=
  let H0 : Mat := fun p q => if p = q ∧ p < m then H p q - shift else H p q
  let rot := (List.range (m - 1)).foldl
    (fun (acc : Mat × List (ℝ × ℝ)) i =>
      let hcs := qrRowRot acc.1 m i
      (hcs.1, acc.2 ++ [hcs.2])) (H0, [])
  let H2 := ((List.range (m - 1)).zip rot.2).foldl
    (fun Hacc ics => qrColRot Hacc m ics.1 ics.2.1 ics.2.2) rot.1
  fun p q => if p = q ∧ p < m then H2 p q + shift else H2 p q

/-- State returned by the inner (per-deflation) QR loop: updated matrix,
eigenvalues deflated during the loop, remaining dimension and the number of
shifted QR steps performed. -/
structure EigState where
  H : Mat
  roots : List CRoot
  m : ℕ
  steps : ℕ

/-- The inner `while iter < maxIter` loop of `computeEigenvalues`, with the
remaining iteration budget as fuel: a 1×1 block or a negligible sub-diagonal
deflates one real eigenvalue, a trailing 2×2 block with negative
discriminant deflates a conjugate pair, otherwise a shifted QR step runs;
an exhausted budget returns the remaining diagonal as real eigenvalues. -/
noncomputable def innerLoop (H : Mat) (m : ℕ) : ℕ → EigState
  | 0 => ⟨H, (List.range m).map (fun i => ⟨H i i, 0⟩), 0, 0⟩
  | fuel + 1 =>
    if m = 1 then ⟨H, [⟨H 0 0, 0⟩], 0, 0⟩
    else
      let subdiag := |H (m - 1) (m - 2)|
      let diag := |H (m - 2) (m - 2)| + |H (m - 1) (m - 1)|
      if subdiag < 1e-10 * diag then ⟨H, [⟨H (m - 1) (m - 1), 0⟩], m - 1, 0⟩
      else
        let a := H (m - 2) (m - 2)
        let b := H (m - 2) (m - 1)
        let c := H (m - 1) (m - 2)
        let d := H (m - 1) (m - 1)
        let disc := (a + d) * (a + d) - 4 * (a * d - b * c)
        if 2 ≤ m ∧ disc < 0 then
          ⟨H, [⟨(a + d) / 2, Real.sqrt (-disc) / 2⟩,
               ⟨(a + d) / 2, -(Real.sqrt (-disc) / 2)⟩], m - 2, 0⟩
        else
          let st := innerLoop (qrStep H m (wilkinsonShift H m)) m fuel
          ⟨st.H, st.roots, st.m, st.steps + 1⟩

/-- The inner loop strictly decreases the active dimension. -/
theorem innerLoop_m_lt (H : Mat) (m : ℕ) (fuel : ℕ) (hm : 0 < m) :
    (innerLoop H m fuel).m < m := by
  induction fuel generalizing H with
  | zero => simpa [innerLoop] using hm
  | succ fuel ih =>
    rw [innerLoop]
    dsimp only
    split
    · simpa using hm
    · split
      · simpa using (by omega : m - 1 < m)
      · split
        · simpa using (by omega : m - 2 < m)
        · simpa using ih (qrStep H m (wilkinsonShift H m))

/-- The inner loop deflates exactly `m - m'` eigenvalues. -/
theorem innerLoop_roots_length (H : Mat) (m : ℕ) (fuel : ℕ) (hm : 0 < m) :
    (innerLoop H m fuel).roots.length + (innerLoop H m fuel).m = m := by
  induction fuel generalizing H with
  | zero => simp [innerLoop]
  | succ fuel ih =>
    rw [innerLoop]
    dsimp only
    split
    · simp only [List.length_cons, List.length_nil]; omega
    · split
      · simp only [List.length_cons, List.length_nil]; omega
      · split
        · next h3 =>
            simp only [List.length_cons, List.length_nil]
            omega
        · simpa using ih (qrStep H m (wilkinsonShift H m))

/-- The inner loop performs at most `fuel` (in particular, at most 50)
shifted QR steps. -/
theorem innerLoop_steps_le (H : Mat) (m : ℕ) (fuel : ℕ) :
    (innerLoop H m fuel).steps ≤ fuel := by
  induction fuel generalizing H with
  | zero => simp [innerLoop]
  | succ fuel ih =>
    rw [innerLoop]
    dsimp only
    split
    · simp
    · split
      · simp
      · split
        · simp
        · have := ih (qrStep H m (wilkinsonShift H m))
          simpa using Nat.add_le_add_right this 1

/-- The outer `while m > 0` loop of `computeEigenvalues`: repeatedly run the
inner loop with a budget of 50 iterations, collecting eigenvalues and the
total count of shifted QR steps. Termination holds because the inner loop
strictly decreases the dimension. -/
noncomputable def outerLoop (H : Mat) (m : ℕ) : List CRoot × ℕ :=
  if h : m = 0 then ([], 0)
  else
    let st := innerLoop H m 50
    have _hlt : st.m < m := innerLoop_m_lt H m 50 (Nat.pos_of_ne_zero h)
    let rest := outerLoop st.H st.m
    (st.roots ++ rest.1, st.steps + rest.2)
termination_by m

/-- Source `LPCAnalyzer.computeEigenvalues`. -/
noncomputable def computeEigenvalues (H : Mat) (n : ℕ) : List CRoot :=
  (outerLoop H n).1

/-- Companion matrix of the prediction polynomial, as built by
`findPolynomialRoots`: superdiagonal ones and `-coeffs[n-i]` in column 0. -/
noncomputable def companionOf (coeffs : List ℝ) (n : ℕ) : Mat :=
  fun i j =>
    if i < n ∧ j = 0 then -(coeffs.getD (n - i) 0)
    else if i < n - 1 ∧ j = i + 1 then 1
    else 0

/-- Source `LPCAnalyzer.findPolynomialRoots`: eigenvalues of the companion matrix
(empty for degree 0). -/
noncomputable def findPolynomialRoots (coeffs : List ℝ) : List CRoot :=
  let n := coeffs.length - 1
  if n = 0 then []
  else computeEigenvalues (companionOf coeffs n) n

/-- The outer loop always returns exactly `m` eigenvalues. -/
theorem outerLoop_length (H : Mat) (m : ℕ) : (outerLoop H m).1.length = m := by
  induction m using Nat.strong_induction_on generalizing H with
  | _ m ih =>
    rw [outerLoop]
    by_cases h : m = 0
    · simp [h]
    · simp only [h, dif_neg, not_false_iff, List.length_append]
      have hlt := innerLoop_m_lt H m 50 (Nat.pos_of_ne_zero h)
      have hlen := innerLoop_roots_length H m 50 (Nat.pos_of_ne_zero h)
      rw [ih _ hlt]
      omega

/-- The outer loop performs at most `50·m` shifted QR steps in total. -/
theorem outerLoop_steps_le (H : Mat) (m : ℕ) : (outerLoop H m).2 ≤ 50 * m := by
  induction m using Nat.strong_induction_on generalizing H with
  | _ m ih =>
    rw [outerLoop]
    by_cases h : m = 0
    · simp [h]
    · simp only [h, dif_neg, not_false_iff]
      have hlt := innerLoop_m_lt H m 50 (Nat.pos_of_ne_zero h)
      have hsteps := innerLoop_steps_le H m 50
      have hrec := ih _ hlt (innerLoop H m 50).H
      have : 50 * (innerLoop H m 50).m ≤ 50 * (m - 1) := by omega
      omega

/-! ## Formant selector (`LPCAnalyzer.coeffsToFormants`) -/

/-- The function `Math.atan2(y, x)`, embedded as the argument of the complex number
`x + y·i`. -/
noncomputable def atan2 (y x : ℝ) : ℝ := Complex.arg ⟨x, y⟩

/-- A formant candidate `{freq, magnitude, bandwidth}`. -/
structure Formant where
  freq : ℝ
  magnitude : ℝ
  bandwidth : ℝ

/-- The per-root body of `coeffsToFormants`: roots with imaginary part at
most 0.001 are skipped; the remaining roots yield an angle-derived
frequency, a pole-proximity magnitude `gain / max(1 - |root|, 0.01)` and a
log-derived bandwidth, kept only inside the admission ranges
`freq ∈ (90, 4000)` and `bandwidth ∈ (0, 600)`. -/
noncomputable def rootToCandidate (sampleRate gain : ℝ) (root : CRoot) : Option Formant :=
  if root.im ≤ 0.001 then none
  else
    let freq := atan2 root.im root.re * sampleRate / (2 * Real.pi)
    let rootMag := Real.sqrt (root.re * root.re + root.im * root.im)
    let magnitude := gain / max (1 - rootMag) 0.01
    let bandwidth := -Real.log rootMag * sampleRate / Real.pi
    if 90 < freq ∧ freq < 4000 ∧ 0 < bandwidth ∧ bandwidth < 600 then
      some ⟨freq, magnitude, bandwidth⟩
    else none

/-- The ascending-frequency comparator of `formants.sort`. -/
noncomputable def formantLe (a b : Formant) : Bool := decide (a.freq ≤ b.freq)

/-- The selection-and-sort pipeline of `coeffsToFormants`, starting from the
root list: filter and convert the roots, then sort ascending by frequency
(a stable sort, as `Array.prototype.sort` is). -/
noncomputable def rootsToFormants (sampleRate : ℝ) (roots : List CRoot) (gain : ℝ) :
    List Formant :=
  List.mergeSort (roots.filterMap (rootToCandidate sampleRate gain)) formantLe

/-- Per-frame formant data `{frequencies, magnitudes}` (each sorted list
projected componentwise, as in the source return value). -/
structure FrameFormants where
  frequencies : List ℝ
  magnitudes : List ℝ

/-- Source `LPCAnalyzer.coeffsToFormants`: root finding followed by selection. -/
noncomputable def coeffsToFormants (sampleRate : ℝ) (coeffs : List ℝ) (gain : ℝ) :
    FrameFormants :=
  let fs := rootsToFormants sampleRate (findPolynomialRoots coeffs) gain
  ⟨fs.map Formant.freq, fs.map Formant.magnitude⟩

/-- The selector output is sorted ascending by frequency. -/
theorem rootsToFormants_sorted (sampleRate : ℝ) (roots : List CRoot) (gain : ℝ) :
    (rootsToFormants sampleRate roots gain).Pairwise (fun a b => a.freq ≤ b.freq) := by
  have h := @List.sorted_mergeSort Formant formantLe
    (fun a b c hab hbc => by
      simp only [formantLe, decide_eq_true_eq] at *
      exact le_trans hab hbc)
    (fun a b => by
      simp only [formantLe]
      by_cases h : a.freq ≤ b.freq
      · simp [h]
      · simp [le_of_not_le h])
    (roots.filterMap (rootToCandidate sampleRate gain))
  exact h.imp (fun hab => by simpa [formantLe] using hab)

/-- The selector output is a permutation of the filtered candidates: it
keeps exactly the admissible roots. -/
theorem rootsToFormants_perm (sampleRate : ℝ) (roots : List CRoot) (gain : ℝ) :
    (rootsToFormants sampleRate roots gain).Perm
      (roots.filterMap (rootToCandidate sampleRate gain)) :=
  List.mergeSort_perm _ _

/-- Membership in the selector output coincides with membership in the
filtered candidate list. -/
theorem rootsToFormants_mem (sampleRate : ℝ) (roots : List CRoot) (gain : ℝ)
    (c : Formant) :
    c ∈ rootsToFormants sampleRate roots gain ↔
    c ∈ roots.filterMap (rootToCandidate sampleRate gain) :=
  (rootsToFormants_perm sampleRate roots gain).mem_iff

/-- What a produced candidate looks like: it comes from a root in the upper
half plane and carries exactly the angle frequency, pole-proximity magnitude
and log bandwidth, inside the admission ranges. -/
theorem rootToCandidate_eq_some (sampleRate gain : ℝ) (root : CRoot) (c : Formant)
    (h : rootToCandidate sampleRate gain root = some c) :
    0.001 < root.im ∧
    c.freq = atan2 root.im root.re * sampleRate / (2 * Real.pi) ∧
    c.magnitude = gain /
      max (1 - Real.sqrt (root.re * root.re + root.im * root.im)) 0.01 ∧
    c.bandwidth = -Real.log (Real.sqrt (root.re * root.re + root.im * root.im)) *
      sampleRate / Real.pi ∧
    90 < c.freq ∧ c.freq < 4000 ∧ 0 < c.bandwidth ∧ c.bandwidth < 600 := by
  unfold rootToCandidate at h
  by_cases him : root.im ≤ 0.001
  · simp [him] at h
  · simp only [him, if_false] at h
    push_neg at him
    split at h
    · next hrange =>
        cases h
        exact ⟨him, rfl, rfl, rfl, hrange.1, hrange.2.1, hrange.2.2.1, hrange.2.2.2⟩
    · exact absurd h (by simp)

/-- Conversely, every admissible root is kept. -/
theorem rootToCandidate_mem_rootsToFormants (sampleRate gain : ℝ) (roots : List CRoot)
    (root : CRoot) (c : Formant) (hr : root ∈ roots)
    (h : rootToCandidate sampleRate gain root = some c) :
    c ∈ rootsToFormants sampleRate roots gain := by
  rw [rootsToFormants_mem]
  exact List.mem_filterMap.2 ⟨root, hr, h⟩

/-- Candidate magnitudes are non-negative whenever the gain is. -/
theorem rootToCandidate_magnitude_nonneg (sampleRate gain : ℝ) (root : CRoot)
    (c : Formant) (hg : 0 ≤ gain) (h : rootToCandidate sampleRate gain root = some c) :
    0 ≤ c.magnitude := by
  obtain ⟨-, -, hmag, -⟩ := rootToCandidate_eq_some sampleRate gain root c h
  rw [hmag]
  apply div_nonneg hg
  exact le_trans (by norm_num) (le_max_right _ _)

/-! ## Frame loop and normalization (`LPCAnalyzer.analyze`,
`LPCAnalyzer.normalizeAmplitudes`) -/

/-- Smoothing state carried across frames: previous frequencies (seeded at
500/1500/2500 Hz) and previous magnitudes (seeded at 0). -/
structure Smooth where
  pf1 : ℝ
  pf2 : ℝ
  pf3 : ℝ
  pm1 : ℝ
  pm2 : ℝ
  pm3 : ℝ

/-- The initial smoothing state of `analyze`. -/
def initSmooth : Smooth := ⟨500, 1500, 2500, 0, 0, 0⟩

/-- One slot of the per-frame smoothing update: exponential smoothing with
factor 0.3 when the frame offers a positive frequency for the slot
(magnitude defaulting to 0 via `|| 0`), and a 0.8 magnitude decay with held
frequency otherwise. -/
noncomputable def slotUpdate (pf pm : ℝ) (fopt mopt : Option ℝ) : ℝ × ℝ :=
  match fopt with
  | some f =>
    if 0 < f then (pf * (1 - 0.3) + f * 0.3, pm * (1 - 0.3) + (mopt.getD 0) * 0.3)
    else (pf, pm * 0.8)
  | none => (pf, pm * 0.8)

/-- The `for i < 3` smoothing loop of one frame. -/
noncomputable def smoothUpdate (st : Smooth) (fr : FrameFormants) : Smooth :=
  let s1 := slotUpdate st.pf1 st.pm1 (fr.frequencies.get? 0) (fr.magnitudes.get? 0)
  let s2 := slotUpdate st.pf2 st.pm2 (fr.frequencies.get? 1) (fr.magnitudes.get? 1)
  let s3 := slotUpdate st.pf3 st.pm3 (fr.frequencies.get? 2) (fr.magnitudes.get? 2)
  ⟨s1.1, s2.1, s3.1, s1.2, s2.2, s3.2⟩

/-- The hop loop of `analyze` over precomputed per-frame formant data:
update the smoothing state, normalize the three magnitudes against their
frame-local maximum (floored at 0.001) and push one weighted point per
track. -/
noncomputable def analyzeLoop : List (ℚ × FrameFormants) → Smooth → Trajectories
  | [], _ => ⟨[], [], []⟩
  | (t, fr) :: rest, st =>
    let st' := smoothUpdate st fr
    let maxMag := max (max (max st'.pm1 st'.pm2) st'.pm3) 0.001
    let T := analyzeLoop rest st'
    ⟨⟨t, st'.pf1, st'.pm1 / maxMag * 1.0⟩ :: T.F1,
     ⟨t, st'.pf2, st'.pm2 / maxMag * 0.7⟩ :: T.F2,
     ⟨t, st'.pf3, st'.pm3 / maxMag * 0.4⟩ :: T.F3⟩

/-- The utterance-wide maximum amplitude of `normalizeAmplitudes`
(accumulated from 0 over all points of all three tracks). -/
def globalAmpMax (T : Trajectories) : ℝ :=
  ((T.F1 ++ T.F2 ++ T.F3).map FormantPoint.amp).foldl max 0

/-- Per-point body of the global normalization: divide by the global
maximum, apply the 0.6 power curve and re-apply the tier weight. -/
noncomputable def normalizePoint (globalMax weight : ℝ) (p : FormantPoint) : FormantPoint :=
  ⟨p.t, p.freq, (p.amp / globalMax) ^ (0.6 : ℝ) * weight⟩

/-- Source `LPCAnalyzer.normalizeAmplitudes`: global normalization pass, a no-op
when the global maximum is not positive. -/
noncomputable def normalizeAmplitudes (T : Trajectories) : Trajectories :=
  let g := globalAmpMax T
  if 0 < g then
    ⟨T.F1.map (normalizePoint g 1.0),
     T.F2.map (normalizePoint g 0.7),
     T.F3.map (normalizePoint g 0.4)⟩
  else T

/-- The per-frame front end of `analyze` for one hop: slice the padded
audio, window it, autocorrelate, run Levinson-Durbin and select formants. -/
noncomputable def frameFormantsAt (padded : List ℚ) (hop : ℕ) : FrameFormants :=
  let frame := (padded.drop (hop * hopSize)).take windowSize
  let windowed := applyWindow frame
  let r := autocorrelate windowed (lpcOrder + 1)
  let ld := levinsonDurbin lpcOrder r
  coeffsToFormants (analysisRate : ℝ) ld.coeffs ld.gain

/-- Source `LPCAnalyzer.analyze`: resample to 8 kHz, pre-emphasize, pad, analyze
`⌊length/hopSize⌋` hops and post-normalize the amplitudes. -/
noncomputable def analyze (audioBuffer : List ℚ) (inputSampleRate : ℚ) : Trajectories :=
  let audio := preEmphasis (resample audioBuffer inputSampleRate analysisRate) (9/10)
  let padSize := (windowSize - hopSize) / 2
  let padded := List.replicate padSize (0 : ℚ) ++ audio ++ List.replicate padSize 0
  let numHops := audio.length / hopSize
  normalizeAmplitudes (analyzeLoop
    ((List.range numHops).map (fun h =>
      (((h * hopSize : ℕ) : ℚ) / analysisRate, frameFormantsAt padded h)))
    initSmooth)

/-- The filter `preEmphasis` preserves the buffer length. -/
theorem preEmphasis_length (audio : List ℚ) (coeff : ℚ) :
    (preEmphasis audio coeff).length = audio.length := by
  simp [preEmphasis]

/-- Levinson-Durbin gains are never negative. -/
theorem levinsonDurbin_gain_nonneg (p : ℕ) (r : List ℝ) :
    0 ≤ (levinsonDurbin p r).gain := by
  unfold levinsonDurbin
  split
  · exact le_refl 0
  · exact Real.sqrt_nonneg _

/-- Levinson-Durbin coefficient vectors have length `p + 1` and leading
coefficient 1. -/
theorem levinsonDurbin_coeffs (p : ℕ) (r : List ℝ) :
    (levinsonDurbin p r).coeffs.length = p + 1 ∧
    (levinsonDurbin p r).coeffs.getD 0 0 = 1 := by
  unfold levinsonDurbin
  split
  · simp
  · have h := ldIter_invariant r p 1 (1 :: List.replicate p 0) (r.getD 0 0)
      (le_refl 1) (by simp)
    refine ⟨h.1.trans (by simp), h.2.trans (by simp)⟩

/-! ## Orchestrator (`FormantPlayer` in `src/js/formant-player.js`)

The waveform source (`TTSCapture.synthesize`) is external and may reject;
it is modelled as an `Except` value handed to the orchestrator. Everything
inside the repository's LPC path (`resample`, `preEmphasis`, `analyze`)
is a total function, so the `try/catch` of `generateFromText` can only
observe a waveform-source rejection. -/

/-- The `analysisMethod` tag on utterance data. -/
inductive AnalysisMethod
  | lpc
  | phonemeMapping
deriving DecidableEq

/-- Failures of the external waveform source: initialization timeout or
unavailability, and `meSpeak.speak` returning no data. -/
inductive SynthFailure
  | unavailable
  | timeout
  | noData
deriving DecidableEq

/-- The utterance data returned by `generateFromText`. -/
structure UtteranceData where
  transcript : String
  duration : ℚ
  formants : Trajectories
  analysisMethod : AnalysisMethod

/-- Source `FormantPlayer.generateWithLPC`: analyze the synthesized buffer; the
duration is the raw buffer length over its sample rate and the method tag
is `lpc`. -/
noncomputable def generateWithLPC (text : String) (audioBuffer : List ℚ) (rate : ℚ) :
    UtteranceData :=
  { transcript := text,
    duration := (audioBuffer.length : ℚ) / rate,
    formants := analyze audioBuffer rate,
    analysisMethod := .lpc }

/-- Source `FormantPlayer.generateWithPhonemeMapping`: the fallback path through
`PhonemeMapper.textToTrajectory`, tagged `phoneme-mapping`. -/
noncomputable def generateWithPhonemeMapping (text : String) : UtteranceData :=
  let tr := textToTrajectory text
  { transcript := text,
    duration := tr.duration,
    formants := tr.formants,
    analysisMethod := .phonemeMapping }

/-- Source `FormantPlayer.generateFromText`: use the LPC path when LPC analysis is
enabled and TTS capture is ready and the waveform source resolves; fall
back to phoneme mapping on the same text otherwise (including the `catch`
of any LPC-path rejection). -/
noncomputable def generateFromText (useLPCAnalysis ttsReady : Bool)
    (synth : Except SynthFailure (List ℚ × ℚ)) (text : String) : UtteranceData :=
  if useLPCAnalysis && ttsReady then
    match synth with
    | .ok br => generateWithLPC text br.1 br.2
    | .error _ => generateWithPhonemeMapping text
  else generateWithPhonemeMapping text

/-! ## Invariant lemmas for the frame loop -/

/-- The initial value is below a max-fold. -/
theorem foldl_max_init (l : List ℝ) (b : ℝ) : b ≤ l.foldl max b := by
  induction l generalizing b with
  | nil => exact le_refl b
  | cons x xs ih => exact le_trans (le_max_left b x) (ih (max b x))

/-- Every member is below a max-fold. -/
theorem foldl_max_mem (l : List ℝ) (b : ℝ) (x : ℝ) (hx : x ∈ l) :
    x ≤ l.foldl max b := by
  induction l generalizing b with
  | nil => cases hx
  | cons y ys ih =>
    rcases List.mem_cons.1 hx with h | h
    · subst h
      exact le_trans (le_max_right b x) (foldl_max_init ys (max b x))
    · exact ih (max b y) h

/-- The smoothing-state invariant maintained across frames: positive
previous frequencies and non-negative previous magnitudes. -/
def SmoothInv (st : Smooth) : Prop :=
  0 < st.pf1 ∧ 0 < st.pf2 ∧ 0 < st.pf3 ∧ 0 ≤ st.pm1 ∧ 0 ≤ st.pm2 ∧ 0 ≤ st.pm3

/-- One smoothing slot preserves frequency positivity and magnitude
non-negativity (the frequency branch is guarded by `0 < f`, the magnitude
input is non-negative by hypothesis). -/
theorem slotUpdate_inv (pf pm : ℝ) (fopt mopt : Option ℝ)
    (hpf : 0 < pf) (hpm : 0 ≤ pm) (hm : ∀ m, mopt = some m → 0 ≤ m) :
    0 < (slotUpdate pf pm fopt mopt).1 ∧ 0 ≤ (slotUpdate pf pm fopt mopt).2 := by
  have hget : 0 ≤ mopt.getD 0 := by
    cases mopt with
    | none => exact le_refl 0
    | some m => exact hm m rfl
  cases fopt with
  | none =>
    simp only [slotUpdate]
    exact ⟨hpf, by nlinarith⟩
  | some f =>
    by_cases hf : 0 < f
    · simp only [slotUpdate, hf, if_true]
      constructor
      · nlinarith
      · nlinarith
    · simp only [slotUpdate, hf, if_false]
      exact ⟨hpf, by nlinarith⟩

/-- The per-frame smoothing update preserves the invariant when the frame's
magnitudes are non-negative. -/
theorem smoothUpdate_inv (st : Smooth) (fr : FrameFormants)
    (hst : SmoothInv st) (hmag : ∀ m ∈ fr.magnitudes, 0 ≤ m) :
    SmoothInv (smoothUpdate st fr) := by
  obtain ⟨h1, h2, h3, h4, h5, h6⟩ := hst
  have hm : ∀ i : ℕ, ∀ m, fr.magnitudes.get? i = some m → 0 ≤ m := by
    intro i m hi
    exact hmag m (List.get?_mem hi)
  have s1 := slotUpdate_inv st.pf1 st.pm1 (fr.frequencies.get? 0) (fr.magnitudes.get? 0)
    h1 h4 (hm 0)
  have s2 := slotUpdate_inv st.pf2 st.pm2 (fr.frequencies.get? 1) (fr.magnitudes.get? 1)
    h2 h5 (hm 1)
  have s3 := slotUpdate_inv st.pf3 st.pm3 (fr.frequencies.get? 2) (fr.magnitudes.get? 2)
    h3 h6 (hm 2)
  exact ⟨s1.1, s2.1, s3.1, s1.2, s2.2, s3.2⟩

/-- Point times of the frame loop are exactly the frame times, on each of
the three tracks. -/
theorem analyzeLoop_times (frames : List (ℚ × FrameFormants)) (st : Smooth) :
    (analyzeLoop frames st).F1.map FormantPoint.t = frames.map Prod.fst ∧
    (analyzeLoop frames st).F2.map FormantPoint.t = frames.map Prod.fst ∧
    (analyzeLoop frames st).F3.map FormantPoint.t = frames.map Prod.fst := by
  induction frames generalizing st with
  | nil => exact ⟨rfl, rfl, rfl⟩
  | cons hd rest ih =>
    obtain ⟨t, fr⟩ := hd
    have h := ih (smoothUpdate st fr)
    simp only [analyzeLoop, List.map_cons]
    exact ⟨by rw [h.1], by rw [h.2.1], by rw [h.2.2]⟩

/-- Every point the frame loop pushes has a positive frequency, and an
amplitude between 0 and its tier weight, provided the frame magnitudes are
non-negative. -/
theorem analyzeLoop_bounds (frames : List (ℚ × FrameFormants)) (st : Smooth)
    (hframes : ∀ pr ∈ frames, ∀ m ∈ (pr : ℚ × FrameFormants).2.magnitudes, 0 ≤ m)
    (hst : SmoothInv st) :
    (∀ p ∈ (analyzeLoop frames st).F1, 0 < p.freq ∧ 0 ≤ p.amp ∧ p.amp ≤ 1) ∧
    (∀ p ∈ (analyzeLoop frames st).F2, 0 < p.freq ∧ 0 ≤ p.amp ∧ p.amp ≤ 0.7) ∧
    (∀ p ∈ (analyzeLoop frames st).F3, 0 < p.freq ∧ 0 ≤ p.amp ∧ p.amp ≤ 0.4) := by
  induction frames generalizing st with
  | nil =>
    refine ⟨?_, ?_, ?_⟩ <;> intro p hp <;> cases hp
  | cons hd rest ih =>
    obtain ⟨t, fr⟩ := hd
    have hst' : SmoothInv (smoothUpdate st fr) :=
      smoothUpdate_inv st fr hst (hframes (t, fr) (List.mem_cons_self _ _))
    have ihr := ih (smoothUpdate st fr)
      (fun pr hpr => hframes pr (List.mem_cons_of_mem _ hpr)) hst'
    obtain ⟨hf1, hf2, hf3, hm1, hm2, hm3⟩ := hst'
    simp only [analyzeLoop]
    set st' := smoothUpdate st fr with hst'def
    set maxMag := max (max (max st'.pm1 st'.pm2) st'.pm3) 0.001 with hmm
    have hmmpos : (0 : ℝ) < maxMag := lt_of_lt_of_le (by norm_num) (le_max_right _ _)
    have hle1 : st'.pm1 ≤ maxMag :=
      le_trans (le_trans (le_max_left _ _) (le_max_left _ _)) (le_max_left _ _)
    have hle2 : st'.pm2 ≤ maxMag :=
      le_trans (le_trans (le_max_right _ _) (le_max_left _ _)) (le_max_left _ _)
    have hle3 : st'.pm3 ≤ maxMag :=
      le_trans (le_max_right _ _) (le_max_left _ _)
    refine ⟨?_, ?_, ?_⟩ <;> intro p hp
    · rcases List.mem_cons.1 hp with h | h
      · subst h
        refine ⟨hf1, ?_, ?_⟩
        · exact mul_nonneg (div_nonneg hm1 (le_of_lt hmmpos)) (by norm_num)
        · have hdle : st'.pm1 / maxMag ≤ 1 := (div_le_one hmmpos).2 hle1
          nlinarith [div_nonneg hm1 (le_of_lt hmmpos)]
      · exact ihr.1 p h
    · rcases List.mem_cons.1 hp with h | h
      · subst h
        refine ⟨hf2, ?_, ?_⟩
        · exact mul_nonneg (div_nonneg hm2 (le_of_lt hmmpos)) (by norm_num)
        · have hdle : st'.pm2 / maxMag ≤ 1 := (div_le_one hmmpos).2 hle2
          nlinarith [div_nonneg hm2 (le_of_lt hmmpos)]
      · exact ihr.2.1 p h
    · rcases List.mem_cons.1 hp with h | h
      · subst h
        refine ⟨hf3, ?_, ?_⟩
        · exact mul_nonneg (div_nonneg hm3 (le_of_lt hmmpos)) (by norm_num)
        · have hdle : st'.pm3 / maxMag ≤ 1 := (div_le_one hmmpos).2 hle3
          nlinarith [div_nonneg hm3 (le_of_lt hmmpos)]
      · exact ihr.2.2 p h

/-- Every point's amplitude is bounded by the global maximum. -/
theorem le_globalAmpMax (T : Trajectories) :
    (∀ p ∈ T.F1, p.amp ≤ globalAmpMax T) ∧
    (∀ p ∈ T.F2, p.amp ≤ globalAmpMax T) ∧
    (∀ p ∈ T.F3, p.amp ≤ globalAmpMax T) := by
  refine ⟨?_, ?_, ?_⟩ <;> intro p hp <;>
    refine foldl_max_mem _ 0 _ (List.mem_map_of_mem _ ?_)
  · exact List.mem_append.2 (Or.inl (List.mem_append.2 (Or.inl hp)))
  · exact List.mem_append.2 (Or.inl (List.mem_append.2 (Or.inr hp)))
  · exact List.mem_append.2 (Or.inr hp)

/-- The global maximum is non-negative. -/
theorem globalAmpMax_nonneg (T : Trajectories) : 0 ≤ globalAmpMax T :=
  foldl_max_init _ 0

/-- The normalized amplitude of a point stays between 0 and the tier
weight. -/
theorem normalizePoint_bounds (g w : ℝ) (p : FormantPoint) (hg : 0 < g)
    (hw : 0 ≤ w) (h0 : 0 ≤ p.amp) (hle : p.amp ≤ g) :
    0 ≤ (normalizePoint g w p).amp ∧ (normalizePoint g w p).amp ≤ w := by
  have hr0 : 0 ≤ p.amp / g := div_nonneg h0 (le_of_lt hg)
  have hr1 : p.amp / g ≤ 1 := (div_le_one hg).2 hle
  have hp0 : 0 ≤ (p.amp / g) ^ (0.6 : ℝ) := Real.rpow_nonneg hr0 _
  have hp1 : (p.amp / g) ^ (0.6 : ℝ) ≤ 1 := Real.rpow_le_one hr0 hr1 (by norm_num)
  constructor
  · exact mul_nonneg hp0 hw
  · calc (p.amp / g) ^ (0.6 : ℝ) * w ≤ 1 * w := by nlinarith
      _ = w := one_mul w

/-- Global normalization preserves the point times of every track. -/
theorem normalizeAmplitudes_times (T : Trajectories) :
    (normalizeAmplitudes T).F1.map FormantPoint.t = T.F1.map FormantPoint.t ∧
    (normalizeAmplitudes T).F2.map FormantPoint.t = T.F2.map FormantPoint.t ∧
    (normalizeAmplitudes T).F3.map FormantPoint.t = T.F3.map FormantPoint.t := by
  unfold normalizeAmplitudes
  dsimp only
  split
  · refine ⟨?_, ?_, ?_⟩ <;> simp [List.map_map, Function.comp, normalizePoint]
  · exact ⟨rfl, rfl, rfl⟩

/-- Global normalization preserves frequency positivity and keeps every
amplitude inside `[0, tier weight]`. -/
theorem normalizeAmplitudes_bounds (T : Trajectories)
    (h1 : ∀ p ∈ T.F1, 0 < p.freq ∧ 0 ≤ p.amp ∧ p.amp ≤ 1)
    (h2 : ∀ p ∈ T.F2, 0 < p.freq ∧ 0 ≤ p.amp ∧ p.amp ≤ 0.7)
    (h3 : ∀ p ∈ T.F3, 0 < p.freq ∧ 0 ≤ p.amp ∧ p.amp ≤ 0.4) :
    (∀ p ∈ (normalizeAmplitudes T).F1, 0 < p.freq ∧ 0 ≤ p.amp ∧ p.amp ≤ 1) ∧
    (∀ p ∈ (normalizeAmplitudes T).F2, 0 < p.freq ∧ 0 ≤ p.amp ∧ p.amp ≤ 0.7) ∧
    (∀ p ∈ (normalizeAmplitudes T).F3, 0 < p.freq ∧ 0 ≤ p.amp ∧ p.amp ≤ 0.4) := by
  have hmax := le_globalAmpMax T
  unfold normalizeAmplitudes
  dsimp only
  split
  · next hg =>
      refine ⟨?_, ?_, ?_⟩ <;> intro p hp
      · obtain ⟨q, hq, rfl⟩ := List.mem_map.1 hp
        have hb := normalizePoint_bounds _ 1.0 q hg (by norm_num) (h1 q hq).2.1
          (hmax.1 q hq)
        exact ⟨(h1 q hq).1, hb.1, le_trans hb.2 (by norm_num)⟩
      · obtain ⟨q, hq, rfl⟩ := List.mem_map.1 hp
        have hb := normalizePoint_bounds _ 0.7 q hg (by norm_num) (h2 q hq).2.1
          (hmax.2.1 q hq)
        exact ⟨(h2 q hq).1, hb.1, hb.2⟩
      · obtain ⟨q, hq, rfl⟩ := List.mem_map.1 hp
        have hb := normalizePoint_bounds _ 0.4 q hg (by norm_num) (h3 q hq).2.1
          (hmax.2.2 q hq)
        exact ⟨(h3 q hq).1, hb.1, hb.2⟩
  · exact ⟨h1, h2, h3⟩

/-- Frame magnitudes produced by the per-hop front end are non-negative
(the Levinson-Durbin gain is non-negative and the pole denominator is
positive). -/
theorem frameFormantsAt_mag_nonneg (padded : List ℚ) (hop : ℕ) :
    ∀ m ∈ (frameFormantsAt padded hop).magnitudes, 0 ≤ m := by
  intro m hm
  unfold frameFormantsAt coeffsToFormants at hm
  simp only at hm
  obtain ⟨c, hc, rfl⟩ := List.mem_map.1 hm
  rw [rootsToFormants_mem] at hc
  obtain ⟨root, _, hcand⟩ := List.mem_filterMap.1 hc
  exact rootToCandidate_magnitude_nonneg _ _ root c
    (levinsonDurbin_gain_nonneg _ _) hcand

/-- Structural properties of the full LPC analysis, for every input buffer
and rate: the three tracks share one strictly increasing time sequence of
length `⌊resampledLength / hopSize⌋`, frequencies are positive, and every
amplitude lies in `[0, tier weight]`. -/
theorem analyze_props (audio : List ℚ) (rate : ℚ) :
    ((analyze audio rate).F1.map FormantPoint.t =
      (analyze audio rate).F2.map FormantPoint.t) ∧
    ((analyze audio rate).F2.map FormantPoint.t =
      (analyze audio rate).F3.map FormantPoint.t) ∧
    List.Pairwise (· < ·) ((analyze audio rate).F1.map FormantPoint.t) ∧
    (∀ p ∈ (analyze audio rate).F1, 0 < p.freq ∧ 0 ≤ p.amp ∧ p.amp ≤ 1) ∧
    (∀ p ∈ (analyze audio rate).F2, 0 < p.freq ∧ 0 ≤ p.amp ∧ p.amp ≤ 0.7) ∧
    (∀ p ∈ (analyze audio rate).F3, 0 < p.freq ∧ 0 ≤ p.amp ∧ p.amp ≤ 0.4) ∧
    (analyze audio rate).F1.length =
      (resample audio rate analysisRate).length / hopSize ∧
    (analyze audio rate).F2.length =
      (resample audio rate analysisRate).length / hopSize ∧
    (analyze audio rate).F3.length =
      (resample audio rate analysisRate).length / hopSize := by
  have hre : (preEmphasis (resample audio rate analysisRate) (9/10)).length
      = (resample audio rate analysisRate).length := preEmphasis_length _ _
  set padded := List.replicate ((windowSize - hopSize) / 2) (0 : ℚ) ++
    preEmphasis (resample audio rate analysisRate) (9/10) ++
    List.replicate ((windowSize - hopSize) / 2) 0 with hpad
  set numHops := (preEmphasis (resample audio rate analysisRate) (9/10)).length / hopSize
    with hnum
  set frames := (List.range numHops).map (fun h =>
    (((h * hopSize : ℕ) : ℚ) / analysisRate, frameFormantsAt padded h)) with hfr
  have hT : analyze audio rate = normalizeAmplitudes (analyzeLoop frames initSmooth) := rfl
  have hframes : ∀ pr ∈ frames, ∀ m ∈ (pr : ℚ × FrameFormants).2.magnitudes, 0 ≤ m := by
    intro pr hpr
    obtain ⟨h, _, rfl⟩ := List.mem_map.1 hpr
    exact frameFormantsAt_mag_nonneg padded h
  have hinit : SmoothInv initSmooth := by
    refine ⟨?_, ?_, ?_, ?_, ?_, ?_⟩ <;> norm_num [initSmooth]
  have hb := analyzeLoop_bounds frames initSmooth hframes hinit
  have ht := analyzeLoop_times frames initSmooth
  have hnt := normalizeAmplitudes_times (analyzeLoop frames initSmooth)
  have hnb := normalizeAmplitudes_bounds _ hb.1 hb.2.1 hb.2.2
  have hfst : frames.map Prod.fst =
      (List.range numHops).map (fun h => ((h * hopSize : ℕ) : ℚ) / analysisRate) := by
    rw [hfr, List.map_map]
    rfl
  have hlen1 : (analyze audio rate).F1.length =
      (resample audio rate analysisRate).length / hopSize := by
    have := congrArg List.length ((hT ▸ hnt.1).trans (ht.1.trans hfst))
    simpa [hnum, hre] using this
  have hlen2 : (analyze audio rate).F2.length =
      (resample audio rate analysisRate).length / hopSize := by
    have := congrArg List.length ((hT ▸ hnt.2.1).trans (ht.2.1.trans hfst))
    simpa [hnum, hre] using this
  have hlen3 : (analyze audio rate).F3.length =
      (resample audio rate analysisRate).length / hopSize := by
    have := congrArg List.length ((hT ▸ hnt.2.2).trans (ht.2.2.trans hfst))
    simpa [hnum, hre] using this
  refine ⟨?_, ?_, ?_, hT ▸ hnb.1, hT ▸ hnb.2.1, hT ▸ hnb.2.2, hlen1, hlen2, hlen3⟩
  · rw [hT, hnt.1, hnt.2.1, ht.1, ht.2.1]
  · rw [hT, hnt.2.1, hnt.2.2, ht.2.1, ht.2.2]
  · rw [hT, hnt.1, ht.1, hfst, List.pairwise_map]
    refine (List.pairwise_lt_range numHops).imp ?_
    intro a b hab
    have h8 : (0 : ℚ) < analysisRate := by norm_num [analysisRate]
    rw [div_lt_div_iff_of_pos_right h8]
    have h256 : (0 : ℚ) < (hopSize : ℚ) := by norm_num [hopSize]
    push_cast
    exact (mul_lt_mul_right h256).2 (by exact_mod_cast hab)

/-! ## Invariant lemmas for the phoneme path -/

/-- A successful association-list lookup returns a stored value. -/
theorem lookup_mem {α β : Type} [BEq α] (l : List (α × β)) (a : α) (b : β)
    (h : l.lookup a = some b) : ∃ pr ∈ l, (pr : α × β).2 = b := by
  induction l with
  | nil => simp [List.lookup] at h
  | cons hd tl ih =>
    obtain ⟨k, v⟩ := hd
    rw [List.lookup_cons] at h
    by_cases hbeq : (a == k) = true
    · rw [hbeq] at h
      exact ⟨(k, v), List.mem_cons_self _ _, Option.some_inj.1 h⟩
    · rw [Bool.not_eq_true] at hbeq
      rw [hbeq] at h
      obtain ⟨pr, hm, he⟩ := ih h
      exact ⟨pr, List.mem_cons_of_mem _ hm, he⟩

/-- Every formant triple stored in the phoneme table is non-negative. -/
theorem phonemeFormantsTable_nonneg :
    ∀ pr ∈ phonemeFormantsTable,
      0 ≤ (pr : String × (ℚ × ℚ × ℚ)).2.1 ∧ 0 ≤ pr.2.2.1 ∧ 0 ≤ pr.2.2.2 := by
  intro pr hpr
  fin_cases hpr <;> refine ⟨?_, ?_, ?_⟩ <;> norm_num

/-- The lookup `getFormants` always returns non-negative values. -/
theorem getFormants_nonneg (p : String) :
    0 ≤ (getFormants p).1 ∧ 0 ≤ (getFormants p).2.1 ∧ 0 ≤ (getFormants p).2.2 := by
  unfold getFormants
  split
  · next f hf =>
      obtain ⟨pr, hm, he⟩ := lookup_mem _ _ _ hf
      exact he ▸ phonemeFormantsTable_nonneg pr hm
  · next hf =>
      have : phonemeFormantsTable.lookup "AH" = some (640, 1190, 2390) := by rfl
      rw [this]
      norm_num

/-- A `jsOr` of a non-negative value with a positive default is positive. -/
theorem jsOr_pos (x d : ℚ) (hx : 0 ≤ x) (hd : 0 < d) : 0 < jsOr x d := by
  unfold jsOr
  split
  · exact hd
  · next hne => exact lt_of_le_of_ne hx (Ne.symm hne)

/-- Targets produced by the per-phoneme loop have positive formant values
and amplitudes in `{0, 1}`. -/
theorem buildTargetsLoop_props (ps : List PhonemeUnit) (t : ℚ) :
    ∀ tg ∈ (buildTargetsLoop ps t).1,
      0 < (tg : PTarget).f1 ∧ 0 < tg.f2 ∧ 0 < tg.f3 ∧ (tg.amp = 0 ∨ tg.amp = 1) := by
  induction ps generalizing t with
  | nil => intro tg htg; cases htg
  | cons u rest ih =>
    intro tg htg
    simp only [buildTargetsLoop] at htg
    rcases List.mem_cons.1 htg with h | h
    · subst h
      have hf := getFormants_nonneg u.phoneme
      refine ⟨jsOr_pos _ _ hf.1 (by norm_num), jsOr_pos _ _ hf.2.1 (by norm_num),
        jsOr_pos _ _ hf.2.2 (by norm_num), ?_⟩
      dsimp only
      split
      · exact Or.inr rfl
      · exact Or.inl rfl
    · exact ih (t + u.duration) tg h

/-- All targets of `buildTargets` have positive formant values and
amplitudes in `[0, 1]`. -/
theorem buildTargets_props (ps : List PhonemeUnit) :
    ∀ tg ∈ (buildTargets ps).1,
      0 < (tg : PTarget).f1 ∧ 0 < tg.f2 ∧ 0 < tg.f3 ∧ 0 ≤ tg.amp ∧ tg.amp ≤ 1 := by
  intro tg htg
  simp only [buildTargets] at htg
  rcases List.mem_cons.1 htg with h | h
  · subst h
    norm_num
  · rcases List.mem_append.1 h with h | h
    · have := buildTargetsLoop_props ps (1/50) tg h
      rcases this.2.2.2 with h0 | h1
      · exact ⟨this.1, this.2.1, this.2.2.1, by rw [h0], by rw [h0]; norm_num⟩
      · exact ⟨this.1, this.2.1, this.2.2.1, by rw [h1]; norm_num, by rw [h1]⟩
    · rcases List.mem_singleton.1 h with rfl
      norm_num

/-- The target search returns members of the target list. -/
theorem findSurroundAux_mem (t : ℚ) (l : List PTarget) (a b : PTarget)
    (h : findSurroundAux t l = some (a, b)) : a ∈ l ∧ b ∈ l := by
  induction l with
  | nil => simp [findSurroundAux] at h
  | cons x xs ih =>
    cases xs with
    | nil => simp [findSurroundAux] at h
    | cons y ys =>
      rw [findSurroundAux] at h
      split at h
      · cases h
        exact ⟨List.mem_cons_self _ _, List.mem_cons_of_mem _ (List.mem_cons_self _ _)⟩
      · have := ih h
        exact ⟨List.mem_cons_of_mem _ this.1, List.mem_cons_of_mem _ this.2⟩

/-- Both surrounding targets are members of a non-empty target list. -/
theorem findSurround_mem (targets : List PTarget) (t : ℚ) (hne : targets ≠ []) :
    (findSurround targets t).1 ∈ targets ∧ (findSurround targets t).2 ∈ targets := by
  unfold findSurround
  cases haux : findSurroundAux t targets with
  | some ab =>
    obtain ⟨a, b⟩ := ab
    simpa using findSurroundAux_mem t targets a b haux
  | none =>
    simp only [Option.getD_none]
    cases targets with
    | nil => exact absurd rfl hne
    | cons x xs =>
      constructor
      · simp
      · have hg : (x :: xs).getLast? = some ((x :: xs).getLast (by simp)) := by
          rw [List.getLast?_eq_getLast]
        rw [hg]
        simp only [Option.getD_some]
        exact List.getLast_mem (l := x :: xs) (by simp)

/-- The cosine-easing factor lies in `[0, 1]` for every argument. -/
theorem easing_bounds (x : ℝ) : 0 ≤ 1/2 - 1/2 * Real.cos x ∧ 1/2 - 1/2 * Real.cos x ≤ 1 := by
  have h1 := Real.cos_le_one x
  have h2 := Real.neg_one_le_cos x
  constructor <;> nlinarith

/-- A convex combination of non-negative endpoints is non-negative. -/
theorem interp_nonneg (a b s : ℝ) (ha : 0 ≤ a) (hb : 0 ≤ b) (hs0 : 0 ≤ s)
    (hs1 : s ≤ 1) : 0 ≤ a + s * (b - a) := by nlinarith

/-- A convex combination of endpoints below 1 stays below 1. -/
theorem interp_le_one (a b s : ℝ) (ha : a ≤ 1) (hb : b ≤ 1) (hs0 : 0 ≤ s)
    (hs1 : s ≤ 1) : a + s * (b - a) ≤ 1 := by nlinarith

/-- Every interpolated sample of a non-empty, positive target list has
non-negative formant values and an amplitude in `[0, 1]`. -/
theorem interpTargets_bounds (targets : List PTarget) (t : ℚ) (hne : targets ≠ [])
    (htg : ∀ tg ∈ targets,
      0 < (tg : PTarget).f1 ∧ 0 < tg.f2 ∧ 0 < tg.f3 ∧ 0 ≤ tg.amp ∧ tg.amp ≤ 1) :
    0 ≤ (interpTargets targets t).f1 ∧ 0 ≤ (interpTargets targets t).f2 ∧
    0 ≤ (interpTargets targets t).f3 ∧
    0 ≤ (interpTargets targets t).amp ∧ (interpTargets targets t).amp ≤ 1 := by
  obtain ⟨hp, hn⟩ := findSurround_mem targets t hne
  obtain ⟨hA, hB, hC, hD, hE⟩ := htg _ hp
  obtain ⟨hA', hB', hC', hD', hE'⟩ := htg _ hn
  unfold interpTargets
  dsimp only
  refine ⟨?_, ?_, ?_, ?_, ?_⟩
  · exact interp_nonneg _ _ _ (by exact_mod_cast le_of_lt hA)
      (by exact_mod_cast le_of_lt hA') (easing_bounds _).1 (easing_bounds _).2
  · exact interp_nonneg _ _ _ (by exact_mod_cast le_of_lt hB)
      (by exact_mod_cast le_of_lt hB') (easing_bounds _).1 (easing_bounds _).2
  · exact interp_nonneg _ _ _ (by exact_mod_cast le_of_lt hC)
      (by exact_mod_cast le_of_lt hC') (easing_bounds _).1 (easing_bounds _).2
  · exact interp_nonneg _ _ _ (by exact_mod_cast hD)
      (by exact_mod_cast hD') (easing_bounds _).1 (easing_bounds _).2
  · exact interp_le_one _ _ _ (by exact_mod_cast hE)
      (by exact_mod_cast hE') (easing_bounds _).1 (easing_bounds _).2

/-- Structural properties of the phoneme-path trajectory, for every phoneme
sequence: the three tracks share one strictly increasing time sequence with
one point every 10 ms, frequencies are non-negative and amplitudes lie in
`[0, 1]`. -/
theorem phonemesToTrajectory_props (ps : List PhonemeUnit) :
    ((phonemesToTrajectory ps).formants.F1.map FormantPoint.t =
      (phonemesToTrajectory ps).formants.F2.map FormantPoint.t) ∧
    ((phonemesToTrajectory ps).formants.F2.map FormantPoint.t =
      (phonemesToTrajectory ps).formants.F3.map FormantPoint.t) ∧
    List.Pairwise (· < ·)
      ((phonemesToTrajectory ps).formants.F1.map FormantPoint.t) ∧
    (∀ p ∈ (phonemesToTrajectory ps).formants.F1,
      0 ≤ p.freq ∧ 0 ≤ p.amp ∧ p.amp ≤ 1) ∧
    (∀ p ∈ (phonemesToTrajectory ps).formants.F2,
      0 ≤ p.freq ∧ 0 ≤ p.amp ∧ p.amp ≤ 1) ∧
    (∀ p ∈ (phonemesToTrajectory ps).formants.F3,
      0 ≤ p.freq ∧ 0 ≤ p.amp ∧ p.amp ≤ 1) ∧
    (phonemesToTrajectory ps).formants.F1.length =
      Nat.ceil ((phonemesToTrajectory ps).duration / (1/100)) + 1 ∧
    (phonemesToTrajectory ps).formants.F2.length =
      Nat.ceil ((phonemesToTrajectory ps).duration / (1/100)) + 1 ∧
    (phonemesToTrajectory ps).formants.F3.length =
      Nat.ceil ((phonemesToTrajectory ps).duration / (1/100)) + 1 := by
  have hne : (buildTargets ps).1 ≠ [] := List.cons_ne_nil _ _
  have htg := buildTargets_props ps
  have hbounds : ∀ i : ℕ,
      0 ≤ (interpTargets (buildTargets ps).1 ((i : ℚ) * (1/100))).f1 ∧
      0 ≤ (interpTargets (buildTargets ps).1 ((i : ℚ) * (1/100))).f2 ∧
      0 ≤ (interpTargets (buildTargets ps).1 ((i : ℚ) * (1/100))).f3 ∧
      0 ≤ (interpTargets (buildTargets ps).1 ((i : ℚ) * (1/100))).amp ∧
      (interpTargets (buildTargets ps).1 ((i : ℚ) * (1/100))).amp ≤ 1 :=
    fun i => interpTargets_bounds _ _ hne htg
  unfold phonemesToTrajectory
  dsimp only
  simp only [List.map_map, List.length_map, List.length_range]
  refine ⟨rfl, rfl, ?_, ?_, ?_, ?_, trivial, trivial, trivial⟩
  · rw [List.pairwise_map]
    refine (List.pairwise_lt_range _).imp ?_
    intro a b hab
    show (a : ℚ) * (1/100) < (b : ℚ) * (1/100)
    have : (a : ℚ) < (b : ℚ) := by exact_mod_cast hab
    nlinarith
  · intro p hp
    obtain ⟨i, _, rfl⟩ := List.mem_map.1 hp
    have hb := hbounds i
    refine ⟨hb.1, ?_, ?_⟩
    · exact mul_nonneg hb.2.2.2.1 (by norm_num [formantAmpF1])
    · calc (interpTargets (buildTargets ps).1 ((i : ℚ) * (1/100))).amp *
          ((formantAmpF1 : ℚ) : ℝ) ≤ 1 * 1 := by
            have h1 : ((formantAmpF1 : ℚ) : ℝ) ≤ 1 := by norm_num [formantAmpF1]
            nlinarith [hb.2.2.2.1, hb.2.2.2.2]
        _ = 1 := by norm_num
  · intro p hp
    obtain ⟨i, _, rfl⟩ := List.mem_map.1 hp
    have hb := hbounds i
    refine ⟨hb.2.1, ?_, ?_⟩
    · exact mul_nonneg hb.2.2.2.1 (by norm_num [formantAmpF2])
    · calc (interpTargets (buildTargets ps).1 ((i : ℚ) * (1/100))).amp *
          ((formantAmpF2 : ℚ) : ℝ) ≤ 1 * 1 := by
            have h1 : ((formantAmpF2 : ℚ) : ℝ) ≤ 1 := by norm_num [formantAmpF2]
            nlinarith [hb.2.2.2.1, hb.2.2.2.2]
        _ = 1 := by norm_num
  · intro p hp
    obtain ⟨i, _, rfl⟩ := List.mem_map.1 hp
    have hb := hbounds i
    refine ⟨hb.2.2.1, ?_, ?_⟩
    · exact mul_nonneg hb.2.2.2.1 (by norm_num [formantAmpF3])
    · calc (interpTargets (buildTargets ps).1 ((i : ℚ) * (1/100))).amp *
          ((formantAmpF3 : ℚ) : ℝ) ≤ 1 * 1 := by
            have h1 : ((formantAmpF3 : ℚ) : ℝ) ≤ 1 := by norm_num [formantAmpF3]
            nlinarith [hb.2.2.2.1, hb.2.2.2.2]
        _ = 1 := by norm_num

/-! ## Claim theorems -/

/-- C2: for every text input, a generate request returns exactly one
utterance value (the orchestrator is a total function), tagged with the
method actually used (`lpc` when the waveform source resolved and the LPC
path ran, `phoneme-mapping` otherwise); any waveform-source failure — the
only fallible step of the LPC path, since the in-repository analysis code
is total — routes to the phoneme-mapping path on the same text, and no
exception escapes. -/
theorem claim2_orchestrator (useLPC ttsReady : Bool)
    (synth : Except SynthFailure (List ℚ × ℚ)) (text : String) :
    ((generateFromText useLPC ttsReady synth text).analysisMethod =
        AnalysisMethod.lpc ∨
     (generateFromText useLPC ttsReady synth text).analysisMethod =
        AnalysisMethod.phonemeMapping) ∧
    (generateFromText useLPC ttsReady synth text).transcript = text ∧
    (∀ er, synth = Except.error er →
      generateFromText useLPC ttsReady synth text = generateWithPhonemeMapping text) ∧
    ((useLPC && ttsReady) = false →
      generateFromText useLPC ttsReady synth text = generateWithPhonemeMapping text) ∧
    (generateWithPhonemeMapping text).analysisMethod = AnalysisMethod.phonemeMapping ∧
    (∀ buf rate, synth = Except.ok (buf, rate) → (useLPC && ttsReady) = true →
      generateFromText useLPC ttsReady synth text = generateWithLPC text buf rate ∧
      (generateWithLPC text buf rate).analysisMethod = AnalysisMethod.lpc) := by
  unfold generateFromText
  by_cases hflag : (useLPC && ttsReady) = true
  · rw [if_pos hflag]
    cases synth with
    | ok br =>
      refine ⟨Or.inl rfl, rfl, ?_, ?_, rfl, ?_⟩
      · intro er her; cases her
      · intro hf; rw [hflag] at hf; cases hf
      · intro buf rate hok _
        cases hok
        exact ⟨rfl, rfl⟩
    | error er =>
      refine ⟨Or.inr rfl, rfl, ?_, ?_, rfl, ?_⟩
      · intro _ _; rfl
      · intro _; rfl
      · intro buf rate hok; cases hok
  · rw [if_neg hflag]
    refine ⟨Or.inr rfl, rfl, ?_, ?_, rfl, ?_⟩
    · intro _ _; rfl
    · intro _; rfl
    · intro buf rate _ hf; exact absurd hf hflag

/-- C2 witness: a waveform-source timeout on the text `hi` produces exactly
the phoneme-mapping utterance, tagged `phoneme-mapping`. -/
theorem claim2_orchestrator_witness :
    generateFromText true true (Except.error SynthFailure.timeout) "hi" =
      generateWithPhonemeMapping "hi" ∧
    (generateFromText true true (Except.error SynthFailure.timeout) "hi").analysisMethod =
      AnalysisMethod.phonemeMapping := by
  have h := claim2_orchestrator true true (Except.error SynthFailure.timeout) "hi"
  have he := h.2.2.1 SynthFailure.timeout rfl
  exact ⟨he, by rw [he]; exact h.2.2.2.2.1⟩

/-- C3 counterexample: `textToPhonemes "hello world"` has summed duration
0.66 s, but the trajectory duration is 0.72 s, not 0.66 + 0.04 s — the
claim's silence padding of 0.04 s is wrong (it is 0.06 s). -/
theorem claim3_counterexample :
    ((textToPhonemes "hello world").map PhonemeUnit.duration).sum = 33/50 ∧
    (phonemesToTrajectory (textToPhonemes "hello world")).duration = 18/25 ∧
    (18/25 : ℚ) ≠ 33/50 + 1/25 := by
  have h : textToPhonemes "hello world" =
      [⟨"HH", 1/25⟩, ⟨"AH", 1/10⟩, ⟨"L", 7/100⟩, ⟨"OW", 1/10⟩,
       ⟨"SIL", 3/50⟩,
       ⟨"W", 7/100⟩, ⟨"ER", 1/10⟩, ⟨"L", 7/100⟩, ⟨"D", 1/20⟩] := by rfl
  refine ⟨?_, ?_, by norm_num⟩
  · rw [h]
    norm_num
  · rw [phonemesToTrajectory_duration, h]
    norm_num

/-- C3 (amended): `textToPhonemes "hello world"` returns exactly the 9
dictionary phonemes with their phonetic-class durations (HH 0.04,
AH 0.10, L 0.07, OW 0.10, inter-word SIL 0.06, W 0.07, ER 0.10, L 0.07,
D 0.05), and the trajectory duration is the summed durations plus 0.06 s of
silence padding (0.02 s leading, 0.04 s trailing) — not plus 0.04 s. -/
theorem claim3_fallback_determinism :
    textToPhonemes "hello world" =
      [⟨"HH", 1/25⟩, ⟨"AH", 1/10⟩, ⟨"L", 7/100⟩, ⟨"OW", 1/10⟩,
       ⟨"SIL", 3/50⟩,
       ⟨"W", 7/100⟩, ⟨"ER", 1/10⟩, ⟨"L", 7/100⟩, ⟨"D", 1/20⟩] ∧
    (textToPhonemes "hello world").length = 9 ∧
    (phonemesToTrajectory (textToPhonemes "hello world")).duration =
      ((textToPhonemes "hello world").map PhonemeUnit.duration).sum + 3/50 :=
  ⟨by rfl, by rfl, phonemesToTrajectory_duration _⟩

/-- Buffers below one hop produce zero frames: the analysis returns the
empty trajectory rather than failing. -/
theorem analyze_short (audio : List ℚ) (rate : ℚ)
    (h : (resample audio rate analysisRate).length / hopSize = 0) :
    analyze audio rate = ⟨[], [], []⟩ := by
  unfold analyze
  dsimp only
  rw [preEmphasis_length, h]
  simp [analyzeLoop, normalizeAmplitudes, globalAmpMax]

/-- C4 counterexample: a 100-sample buffer at 8000 Hz resamples to 100
samples, fewer than one analysis window (512) — yet `analyze` returns
normally (an empty trajectory, no `SignalTooShort` failure exists anywhere
in the code), and the orchestrator keeps the LPC result without falling
back. -/
theorem claim4_counterexample :
    (resample (List.replicate 100 (0 : ℚ)) 8000 analysisRate).length = 100 ∧
    (100 : ℕ) < windowSize ∧
    analyze (List.replicate 100 (0 : ℚ)) 8000 = ⟨[], [], []⟩ ∧
    (generateFromText true true (Except.ok (List.replicate 100 (0 : ℚ), 8000))
      "hi").analysisMethod = AnalysisMethod.lpc := by
  have hres : resample (List.replicate 100 (0 : ℚ)) 8000 analysisRate =
      List.replicate 100 (0 : ℚ) := by
    unfold resample
    rw [if_pos]
    norm_num [analysisRate]
  refine ⟨by rw [hres]; simp, by norm_num [windowSize], ?_, rfl⟩
  apply analyze_short
  rw [hres]
  simp [hopSize]

/-- C4 (amended): there is no `SignalTooShort` failure: for every buffer
the analysis returns a trajectory with `⌊resampledLength / hopSize⌋` points
per track (zero points when the resampled buffer is below one hop of 256
samples, one point when it is below one window of 512 samples), and a
resolved waveform source always yields the `lpc` tag — short buffers never
trigger the fallback. -/
theorem claim4_short_signal (audio : List ℚ) (rate : ℚ) (text : String)
    (buf : List ℚ) (r : ℚ) :
    (analyze audio rate).F1.length =
      (resample audio rate analysisRate).length / hopSize ∧
    (analyze audio rate).F2.length =
      (resample audio rate analysisRate).length / hopSize ∧
    (analyze audio rate).F3.length =
      (resample audio rate analysisRate).length / hopSize ∧
    (generateFromText true true (Except.ok (buf, r)) text).analysisMethod =
      AnalysisMethod.lpc := by
  have h := analyze_props audio rate
  exact ⟨h.2.2.2.2.2.2.1, h.2.2.2.2.2.2.2.1, h.2.2.2.2.2.2.2.2, rfl⟩

/-- C8 counterexample: the empty input is not surfaced as a failure — a
generate request with empty text and no waveform returns a complete
(silent) trajectory of duration 0.06 s with 7 points per track. -/
theorem claim8_counterexample :
    (generateFromText false false (Except.error SynthFailure.unavailable) "").duration
      = 3/50 ∧
    (generateFromText false false (Except.error SynthFailure.unavailable)
      "").formants.F1.length = 7 ∧
    (generateFromText false false (Except.error SynthFailure.unavailable)
      "").formants.F2.length = 7 ∧
    (generateFromText false false (Except.error SynthFailure.unavailable)
      "").formants.F3.length = 7 := by
  have hempty : textToPhonemes "" = [] := by rfl
  have hu : generateFromText false false (Except.error SynthFailure.unavailable) "" =
      generateWithPhonemeMapping "" := by rfl
  have hdur : (phonemesToTrajectory (textToPhonemes "")).duration = 3/50 := by
    rw [phonemesToTrajectory_duration, hempty]
    norm_num
  have hprops := phonemesToTrajectory_props (textToPhonemes "")
  have hlen : Nat.ceil ((phonemesToTrajectory (textToPhonemes "")).duration / (1/100)) + 1
      = 7 := by
    rw [hdur]
    norm_num
  refine ⟨?_, ?_, ?_, ?_⟩
  · rw [hu]
    show (phonemesToTrajectory (textToPhonemes "")).duration = 3/50
    exact hdur
  · rw [hu]
    show (phonemesToTrajectory (textToPhonemes "")).formants.F1.length = 7
    rw [hprops.2.2.2.2.2.2.1, hlen]
  · rw [hu]
    show (phonemesToTrajectory (textToPhonemes "")).formants.F2.length = 7
    rw [hprops.2.2.2.2.2.2.2.1, hlen]
  · rw [hu]
    show (phonemesToTrajectory (textToPhonemes "")).formants.F3.length = 7
    rw [hprops.2.2.2.2.2.2.2.2, hlen]

/-- C8 (amended): the code surfaces no `EmptyInput` failure at all — every
generate request (including one with empty text and no waveform) returns a
trajectory, tagged with the method used; on the phoneme path, empty text
yields a silent trajectory of duration 0.06 s with 7 points per track. -/
theorem claim8_empty_input (useLPC ttsReady : Bool)
    (synth : Except SynthFailure (List ℚ × ℚ)) :
    ((generateFromText useLPC ttsReady synth "").analysisMethod =
        AnalysisMethod.lpc ∨
     (generateFromText useLPC ttsReady synth "").analysisMethod =
        AnalysisMethod.phonemeMapping) ∧
    (generateWithPhonemeMapping "").duration = 3/50 ∧
    (generateWithPhonemeMapping "").formants.F1.length = 7 ∧
    (generateWithPhonemeMapping "").formants.F2.length = 7 ∧
    (generateWithPhonemeMapping "").formants.F3.length = 7 := by
  have hempty : textToPhonemes "" = [] := by rfl
  have hdur : (phonemesToTrajectory (textToPhonemes "")).duration = 3/50 := by
    rw [phonemesToTrajectory_duration, hempty]
    norm_num
  have hprops := phonemesToTrajectory_props (textToPhonemes "")
  have hlen : Nat.ceil ((phonemesToTrajectory (textToPhonemes "")).duration / (1/100)) + 1
      = 7 := by
    rw [hdur]
    norm_num
  refine ⟨?_, ?_, ?_, ?_, ?_⟩
  · unfold generateFromText
    by_cases hflag : (useLPC && ttsReady) = true
    · rw [if_pos hflag]
      cases synth with
      | ok br => exact Or.inl rfl
      | error er => exact Or.inr rfl
    · rw [if_neg hflag]
      exact Or.inr rfl
  · exact hdur
  · show (phonemesToTrajectory (textToPhonemes "")).formants.F1.length = 7
    rw [hprops.2.2.2.2.2.2.1, hlen]
  · show (phonemesToTrajectory (textToPhonemes "")).formants.F2.length = 7
    rw [hprops.2.2.2.2.2.2.2.1, hlen]
  · show (phonemesToTrajectory (textToPhonemes "")).formants.F3.length = 7
    rw [hprops.2.2.2.2.2.2.2.2, hlen]

/-- C5: `levinsonDurbin` returns a coefficient vector of length `order + 1`
with leading coefficient 1 and a non-negative gain; a near-silent frame
(`r[0] < 1e-10`) short-circuits to identity coefficients with gain 0; the
non-silent case runs the order recursion (which halts as soon as the
updated prediction error is non-positive) and returns the gain
`sqrt(max(e, 0))`. -/
theorem claim5_levinson_durbin (p : ℕ) (r : List ℝ) :
    (levinsonDurbin p r).coeffs.length = p + 1 ∧
    (levinsonDurbin p r).coeffs.getD 0 0 = 1 ∧
    0 ≤ (levinsonDurbin p r).gain ∧
    (r.getD 0 0 < 1e-10 →
      levinsonDurbin p r = ⟨1 :: List.replicate p 0, 0⟩) ∧
    (¬ r.getD 0 0 < 1e-10 →
      levinsonDurbin p r =
        ⟨(ldIter r p 1 (1 :: List.replicate p 0) (r.getD 0 0)).1,
         Real.sqrt (max (ldIter r p 1 (1 :: List.replicate p 0) (r.getD 0 0)).2 0)⟩) ∧
    (∀ n i (a : List ℝ) (e : ℝ), (ldStep r i a e).2 ≤ 0 →
      ldIter r (n + 1) i a e = ldStep r i a e) := by
  refine ⟨(levinsonDurbin_coeffs p r).1, (levinsonDurbin_coeffs p r).2,
    levinsonDurbin_gain_nonneg p r, ?_, ?_, ?_⟩
  · intro hsil
    unfold levinsonDurbin
    rw [if_pos hsil]
  · intro hsil
    unfold levinsonDurbin
    rw [if_neg hsil]
  · intro n i a e hstop
    rw [ldIter]
    simp only [hstop, if_true]

/-- C5 witness: on the all-zero autocorrelation vector of length 13 the
recursion is skipped and the identity model with zero gain is returned. -/
theorem claim5_levinson_durbin_witness :
    (List.replicate 13 (0 : ℝ)).getD 0 0 < 1e-10 ∧
    levinsonDurbin 12 (List.replicate 13 (0 : ℝ)) =
      ⟨1 :: List.replicate 12 0, 0⟩ := by
  have hsil : (List.replicate 13 (0 : ℝ)).getD 0 0 < 1e-10 := by
    norm_num [List.replicate]
  exact ⟨hsil, (claim5_levinson_durbin 12 (List.replicate 13 (0 : ℝ))).2.2.2.1 hsil⟩

/-- C7: the QR eigenvalue iteration always terminates: the inner loop is
budgeted (at most `fuel` — instantiated at 50 — shifted QR steps per
deflation), the whole solver performs at most `50·n` shifted QR steps, and
an exhausted budget returns the remaining diagonal entries as real
eigenvalues instead of iterating further. -/
theorem claim7_qr_termination (H : Mat) (m fuel : ℕ) :
    (innerLoop H m fuel).steps ≤ fuel ∧
    (outerLoop H m).2 ≤ 50 * m ∧
    innerLoop H m 0 =
      ⟨H, (List.range m).map (fun i => ⟨H i i, 0⟩), 0, 0⟩ :=
  ⟨innerLoop_steps_le H m fuel, outerLoop_steps_le H m, rfl⟩

/-- C10: for every coefficient vector of length `n + 1` with `n ≥ 1`,
`findPolynomialRoots` returns exactly `n` root entries, whichever branches
(real deflation, complex-pair deflation, non-convergence fallback) the
eigenvalue computation takes. -/
theorem claim10_root_count (coeffs : List ℝ) (n : ℕ)
    (hlen : coeffs.length = n + 1) (hn : 1 ≤ n) :
    (findPolynomialRoots coeffs).length = n := by
  unfold findPolynomialRoots
  dsimp only
  rw [hlen]
  simp only [Nat.add_sub_cancel]
  rw [if_neg (by omega : ¬ n = 0)]
  exact outerLoop_length _ n

/-- C10 witness: the degree-1 polynomial `1 - z⁻¹/2` yields exactly one
root entry. -/
theorem claim10_root_count_witness :
    ([(1 : ℝ), -(1/2)].length = 1 + 1) ∧
    (findPolynomialRoots [(1 : ℝ), -(1/2)]).length = 1 :=
  ⟨rfl, claim10_root_count [(1 : ℝ), -(1/2)] 1 rfl (le_refl 1)⟩

/-- C6: for every root list and gain, the formant selector keeps exactly
the roots with imaginary part above 0.001 whose angle-derived frequency
lies in (90, 4000) Hz and whose log-derived bandwidth lies in (0, 600) Hz
(a permutation of the filtered candidates, nothing more and nothing less),
assigns each kept candidate the magnitude `gain / max(1 - |root|, 0.01)`,
and returns the list sorted ascending by frequency — so the first three
entries are the three lowest-frequency survivors, which `analyze` reads
into the F1, F2, F3 slots. -/
theorem claim6_formant_selector (sampleRate gain : ℝ) (roots : List CRoot) :
    (rootsToFormants sampleRate roots gain).Pairwise
      (fun a b => (a : Formant).freq ≤ (b : Formant).freq) ∧
    (rootsToFormants sampleRate roots gain).Perm
      (roots.filterMap (rootToCandidate sampleRate gain)) ∧
    (∀ c ∈ rootsToFormants sampleRate roots gain,
      ∃ root ∈ roots, 0.001 < (root : CRoot).im ∧
        (c : Formant).freq = atan2 root.im root.re * sampleRate / (2 * Real.pi) ∧
        c.magnitude = gain /
          max (1 - Real.sqrt (root.re * root.re + root.im * root.im)) 0.01 ∧
        c.bandwidth = -Real.log (Real.sqrt (root.re * root.re + root.im * root.im)) *
          sampleRate / Real.pi ∧
        90 < c.freq ∧ c.freq < 4000 ∧ 0 < c.bandwidth ∧ c.bandwidth < 600) ∧
    (∀ root ∈ roots, ∀ c, rootToCandidate sampleRate gain root = some c →
      c ∈ rootsToFormants sampleRate roots gain) := by
  refine ⟨rootsToFormants_sorted sampleRate roots gain,
    rootsToFormants_perm sampleRate roots gain, ?_, ?_⟩
  · intro c hc
    rw [rootsToFormants_mem] at hc
    obtain ⟨root, hr, hcand⟩ := List.mem_filterMap.1 hc
    obtain ⟨h1, h2, h3, h4, h5⟩ := rootToCandidate_eq_some sampleRate gain root c hcand
    exact ⟨root, hr, h1, h2, h3, h4, h5⟩
  · intro root hr c hcand
    exact rootToCandidate_mem_rootsToFormants sampleRate gain roots root c hr hcand

/-- C6 witness: the root `0 + 0.9i` at 8000 Hz with gain 1 is kept, with
frequency 2000 Hz (angle π/2), magnitude `1 / max(0.1, 0.01) = 10` and an
admissible bandwidth, and it appears in the selector output. -/
theorem claim6_formant_selector_witness :
    rootToCandidate 8000 1 ⟨0, 9/10⟩ =
      some ⟨2000, 10,
        -Real.log (Real.sqrt ((0 : ℝ) * 0 + 9/10 * (9/10))) * 8000 / Real.pi⟩ ∧
    (⟨2000, 10,
        -Real.log (Real.sqrt ((0 : ℝ) * 0 + 9/10 * (9/10))) * 8000 / Real.pi⟩ : Formant) ∈
      rootsToFormants 8000 [⟨0, 9/10⟩] 1 := by
  have hrho : Real.sqrt ((0 : ℝ) * 0 + 9/10 * (9/10)) = 9/10 := by
    rw [show ((0 : ℝ) * 0 + 9/10 * (9/10)) = (9/10 : ℝ) ^ 2 by ring]
    exact Real.sqrt_sq (by norm_num)
  have harg : atan2 (9/10 : ℝ) 0 = Real.pi / 2 := by
    unfold atan2
    have hIm : (⟨0, 9/10⟩ : ℂ) = ((9/10 : ℝ) : ℂ) * Complex.I := by
      apply Complex.ext <;> simp
    rw [hIm, Complex.arg_real_mul _ (by norm_num), Complex.arg_I]
  have hfreq : atan2 (9/10 : ℝ) 0 * 8000 / (2 * Real.pi) = 2000 := by
    have hpi := Real.pi_ne_zero
    rw [harg]
    field_simp
    ring
  have hmag : (1 : ℝ) / max (1 - Real.sqrt ((0 : ℝ) * 0 + 9/10 * (9/10))) 0.01 = 10 := by
    rw [hrho, show max (1 - 9/10 : ℝ) 0.01 = 1/10 by
      rw [max_eq_left (by norm_num : (0.01 : ℝ) ≤ 1 - 9/10)]; norm_num]
    norm_num
  have hL0 : Real.log (9/10 : ℝ) < 0 := Real.log_neg (by norm_num) (by norm_num)
  have hbw0 : 0 < -Real.log (9/10 : ℝ) * 8000 / Real.pi :=
    div_pos (by nlinarith) Real.pi_pos
  have hLle : -Real.log (9/10 : ℝ) ≤ 1/9 := by
    have h2 : Real.log ((9/10 : ℝ)⁻¹) ≤ (9/10 : ℝ)⁻¹ - 1 :=
      Real.log_le_sub_one_of_pos (by norm_num)
    rw [Real.log_inv] at h2
    calc -Real.log (9/10 : ℝ) ≤ (9/10 : ℝ)⁻¹ - 1 := h2
      _ = 1/9 := by norm_num
  have hbw600 : -Real.log (9/10 : ℝ) * 8000 / Real.pi < 600 := by
    have hpi3 : (3 : ℝ) < Real.pi := Real.pi_gt_three
    have hnum : -Real.log (9/10 : ℝ) * 8000 ≤ (1/9 : ℝ) * 8000 := by nlinarith
    have hstep1 : -Real.log (9/10 : ℝ) * 8000 / Real.pi ≤ (1/9 : ℝ) * 8000 / Real.pi :=
      (div_le_div_iff_of_pos_right Real.pi_pos).2 hnum
    have hstep2 : (1/9 : ℝ) * 8000 / Real.pi < (1/9 : ℝ) * 8000 / 3 :=
      div_lt_div_of_pos_left (by norm_num) (by norm_num) hpi3
    calc -Real.log (9/10 : ℝ) * 8000 / Real.pi ≤ (1/9 : ℝ) * 8000 / Real.pi := hstep1
      _ < (1/9 : ℝ) * 8000 / 3 := hstep2
      _ < 600 := by norm_num
  have hcand : rootToCandidate 8000 1 ⟨0, 9/10⟩ =
      some ⟨2000, 10,
        -Real.log (Real.sqrt ((0 : ℝ) * 0 + 9/10 * (9/10))) * 8000 / Real.pi⟩ := by
    unfold rootToCandidate
    rw [if_neg (by norm_num : ¬ ((⟨0, 9/10⟩ : CRoot).im ≤ 0.001))]
    dsimp only
    rw [if_pos]
    · rw [hfreq, hmag]
    · refine ⟨?_, ?_, ?_, ?_⟩
      · rw [hfreq]; norm_num
      · rw [hfreq]; norm_num
      · rw [hrho]; exact hbw0
      · rw [hrho]; exact hbw600
  refine ⟨hcand, ?_⟩
  exact (claim6_formant_selector 8000 1 [⟨0, 9/10⟩]).2.2.2 ⟨0, 9/10⟩
    (List.mem_singleton_self _) _ hcand

/-- C9: every trajectory returned by either path has exactly three tracks
of equal length sharing the same strictly increasing time sequence, with
non-negative frequencies and amplitudes in `[0, 1]`. -/
theorem claim9_trajectory_invariants (audio : List ℚ) (rate : ℚ) (text : String) :
    ((analyze audio rate).F1.map FormantPoint.t =
      (analyze audio rate).F2.map FormantPoint.t) ∧
    ((analyze audio rate).F2.map FormantPoint.t =
      (analyze audio rate).F3.map FormantPoint.t) ∧
    (analyze audio rate).F1.length = (analyze audio rate).F2.length ∧
    (analyze audio rate).F2.length = (analyze audio rate).F3.length ∧
    List.Pairwise (· < ·) ((analyze audio rate).F1.map FormantPoint.t) ∧
    (∀ p ∈ (analyze audio rate).F1 ++ (analyze audio rate).F2 ++
        (analyze audio rate).F3, 0 ≤ p.freq ∧ 0 ≤ p.amp ∧ p.amp ≤ 1) ∧
    ((textToTrajectory text).formants.F1.map FormantPoint.t =
      (textToTrajectory text).formants.F2.map FormantPoint.t) ∧
    ((textToTrajectory text).formants.F2.map FormantPoint.t =
      (textToTrajectory text).formants.F3.map FormantPoint.t) ∧
    (textToTrajectory text).formants.F1.length =
      (textToTrajectory text).formants.F2.length ∧
    (textToTrajectory text).formants.F2.length =
      (textToTrajectory text).formants.F3.length ∧
    List.Pairwise (· < ·)
      ((textToTrajectory text).formants.F1.map FormantPoint.t) ∧
    (∀ p ∈ (textToTrajectory text).formants.F1 ++
        (textToTrajectory text).formants.F2 ++ (textToTrajectory text).formants.F3,
      0 ≤ p.freq ∧ 0 ≤ p.amp ∧ p.amp ≤ 1) := by
  have hA := analyze_props audio rate
  have hP := phonemesToTrajectory_props (textToPhonemes text)
  have hPT : textToTrajectory text = phonemesToTrajectory (textToPhonemes text) := rfl
  refine ⟨hA.1, hA.2.1, ?_, ?_, hA.2.2.1, ?_, ?_, ?_, ?_, ?_, ?_, ?_⟩
  · have := congrArg List.length hA.1
    simpa using this
  · have := congrArg List.length hA.2.1
    simpa using this
  · intro p hp
    rcases List.mem_append.1 hp with hp | hp
    · rcases List.mem_append.1 hp with hp | hp
      · have h := hA.2.2.2.1 p hp
        exact ⟨le_of_lt h.1, h.2.1, h.2.2⟩
      · have h := hA.2.2.2.2.1 p hp
        exact ⟨le_of_lt h.1, h.2.1, le_trans h.2.2 (by norm_num)⟩
    · have h := hA.2.2.2.2.2.1 p hp
      exact ⟨le_of_lt h.1, h.2.1, le_trans h.2.2 (by norm_num)⟩
  · rw [hPT]; exact hP.1
  · rw [hPT]; exact hP.2.1
  · rw [hPT]
    have := congrArg List.length hP.1
    simpa using this
  · rw [hPT]
    have := congrArg List.length hP.2.1
    simpa using this
  · rw [hPT]; exact hP.2.2.1
  · rw [hPT]
    intro p hp
    rcases List.mem_append.1 hp with hp | hp
    · rcases List.mem_append.1 hp with hp | hp
      · exact hP.2.2.2.1 p hp
      · exact hP.2.2.2.2.1 p hp
    · exact hP.2.2.2.2.2.1 p hp

/-- C1 counterexample: a non-silent analyzed utterance (one frame offering
two admissible candidates, the higher-frequency one louder, so the
utterance-wide maximum sits on the F2 track) in which, after the global
normalization pass, every point of every track has amplitude strictly
below 1 — the maximum is not the F1 tier weight 1.0. -/
theorem claim1_counterexample :
    0 < globalAmpMax
      (analyzeLoop [((0 : ℚ), (⟨[500, 1500], [1, 2]⟩ : FrameFormants))] initSmooth) ∧
    (∀ p ∈ (normalizeAmplitudes (analyzeLoop
          [((0 : ℚ), (⟨[500, 1500], [1, 2]⟩ : FrameFormants))] initSmooth)).F1 ++
        (normalizeAmplitudes (analyzeLoop
          [((0 : ℚ), (⟨[500, 1500], [1, 2]⟩ : FrameFormants))] initSmooth)).F2 ++
        (normalizeAmplitudes (analyzeLoop
          [((0 : ℚ), (⟨[500, 1500], [1, 2]⟩ : FrameFormants))] initSmooth)).F3,
      p.amp < 1) := by
  have hsm : smoothUpdate initSmooth ⟨[500, 1500], [1, 2]⟩ =
      ⟨500, 1500, 2500, 0.3, 0.6, 0⟩ := by
    unfold smoothUpdate slotUpdate initSmooth
    norm_num [List.get?]
  have hT0 : analyzeLoop [((0 : ℚ), (⟨[500, 1500], [1, 2]⟩ : FrameFormants))] initSmooth =
      ⟨[⟨0, 500, 0.5⟩], [⟨0, 1500, 0.7⟩], [⟨0, 2500, 0⟩]⟩ := by
    simp only [analyzeLoop, hsm]
    norm_num [max_def]
  have hg : globalAmpMax
      (⟨[⟨0, 500, 0.5⟩], [⟨0, 1500, 0.7⟩], [⟨0, 2500, 0⟩]⟩ : Trajectories) = 0.7 := by
    unfold globalAmpMax
    norm_num [max_def]
  constructor
  · rw [hT0, hg]
    norm_num
  · rw [hT0]
    unfold normalizeAmplitudes
    dsimp only
    rw [hg, if_pos (by norm_num : (0 : ℝ) < 0.7)]
    intro p hp
    simp only [List.map_cons, List.map_nil, normalizePoint, List.cons_append,
      List.nil_append, List.mem_cons, List.not_mem_nil, or_false] at hp
    rcases hp with rfl | rfl | rfl
    · show (0.5 / 0.7 : ℝ) ^ (0.6 : ℝ) * 1.0 < 1
      have hlt : (0.5 / 0.7 : ℝ) ^ (0.6 : ℝ) < 1 :=
        Real.rpow_lt_one (by norm_num) (by norm_num) (by norm_num)
      nlinarith [Real.rpow_nonneg (show (0 : ℝ) ≤ 0.5 / 0.7 by norm_num) (0.6 : ℝ)]
    · show (0.7 / 0.7 : ℝ) ^ (0.6 : ℝ) * 0.7 < 1
      rw [div_self (by norm_num : (0.7 : ℝ) ≠ 0), Real.one_rpow, one_mul]
      norm_num
    · show (0 / 0.7 : ℝ) ^ (0.6 : ℝ) * 0.4 < 1
      rw [zero_div, Real.zero_rpow (by norm_num : (0.6 : ℝ) ≠ 0), zero_mul]
      norm_num

/-- C1 (amended): after the global normalization pass no point of any
track exceeds its tier weight (every amplitude lies in `[0, w]` with
w = 1.0 / 0.7 / 0.4 for F1 / F2 / F3); and whenever the utterance-wide
maximum amplitude is attained by an F1 point (with positive amplitude),
that point's normalized amplitude equals exactly the F1 tier weight 1.0.
When the global maximum is attained only on F2 or F3 the maximum need not
be 1.0: in the counterexample every normalized point is strictly below
1. -/
theorem claim1_amplitude_normalization (frames : List (ℚ × FrameFormants))
    (hmag : ∀ pr ∈ frames, ∀ m ∈ (pr : ℚ × FrameFormants).2.magnitudes, 0 ≤ m) :
    (∀ p ∈ (normalizeAmplitudes (analyzeLoop frames initSmooth)).F1,
      0 ≤ p.amp ∧ p.amp ≤ 1) ∧
    (∀ p ∈ (normalizeAmplitudes (analyzeLoop frames initSmooth)).F2,
      0 ≤ p.amp ∧ p.amp ≤ 0.7) ∧
    (∀ p ∈ (normalizeAmplitudes (analyzeLoop frames initSmooth)).F3,
      0 ≤ p.amp ∧ p.amp ≤ 0.4) ∧
    (∀ p ∈ (analyzeLoop frames initSmooth).F1,
      p.amp = globalAmpMax (analyzeLoop frames initSmooth) → 0 < p.amp →
        normalizePoint (globalAmpMax (analyzeLoop frames initSmooth)) 1.0 p ∈
          (normalizeAmplitudes (analyzeLoop frames initSmooth)).F1 ∧
        (normalizePoint (globalAmpMax (analyzeLoop frames initSmooth)) 1.0 p).amp = 1) := by
  have hinit : SmoothInv initSmooth := by
    refine ⟨?_, ?_, ?_, ?_, ?_, ?_⟩ <;> norm_num [initSmooth]
  have hb := analyzeLoop_bounds frames initSmooth hmag hinit
  have hnb := normalizeAmplitudes_bounds _ hb.1 hb.2.1 hb.2.2
  refine ⟨fun p hp => ⟨(hnb.1 p hp).2.1, (hnb.1 p hp).2.2⟩,
    fun p hp => ⟨(hnb.2.1 p hp).2.1, (hnb.2.1 p hp).2.2⟩,
    fun p hp => ⟨(hnb.2.2 p hp).2.1, (hnb.2.2 p hp).2.2⟩, ?_⟩
  intro p hp heq hpos
  have hgpos : 0 < globalAmpMax (analyzeLoop frames initSmooth) := heq ▸ hpos
  constructor
  · unfold normalizeAmplitudes
    dsimp only
    rw [if_pos hgpos]
    exact List.mem_map_of_mem _ hp
  · show (p.amp / globalAmpMax (analyzeLoop frames initSmooth)) ^ (0.6 : ℝ) * 1.0 = 1
    rw [heq, div_self (ne_of_gt hgpos), Real.one_rpow]
    norm_num

/-- C1 witness: one frame with a single admissible candidate puts the
global maximum on F1 with amplitude 1; after global normalization that F1
point has amplitude exactly 1. -/
theorem claim1_amplitude_normalization_witness :
    (∀ pr ∈ [((0 : ℚ), (⟨[500], [1]⟩ : FrameFormants))],
      ∀ m ∈ (pr : ℚ × FrameFormants).2.magnitudes, 0 ≤ m) ∧
    ∃ q ∈ (normalizeAmplitudes (analyzeLoop
        [((0 : ℚ), (⟨[500], [1]⟩ : FrameFormants))] initSmooth)).F1, q.amp = 1 := by
  have hmag : ∀ pr ∈ [((0 : ℚ), (⟨[500], [1]⟩ : FrameFormants))],
      ∀ m ∈ (pr : ℚ × FrameFormants).2.magnitudes, 0 ≤ m := by
    intro pr hpr m hm
    simp only [List.mem_singleton] at hpr
    subst hpr
    simp only [List.mem_singleton] at hm
    subst hm
    norm_num
  have hsm : smoothUpdate initSmooth ⟨[500], [1]⟩ = ⟨500, 1500, 2500, 0.3, 0, 0⟩ := by
    unfold smoothUpdate slotUpdate initSmooth
    norm_num [List.get?]
  have hT0 : analyzeLoop [((0 : ℚ), (⟨[500], [1]⟩ : FrameFormants))] initSmooth =
      ⟨[⟨0, 500, 1⟩], [⟨0, 1500, 0⟩], [⟨0, 2500, 0⟩]⟩ := by
    simp only [analyzeLoop, hsm]
    norm_num [max_def]
  have hg : globalAmpMax
      (analyzeLoop [((0 : ℚ), (⟨[500], [1]⟩ : FrameFormants))] initSmooth) = 1 := by
    rw [hT0]
    unfold globalAmpMax
    norm_num [max_def]
  have hp : (⟨0, 500, 1⟩ : FormantPoint) ∈
      (analyzeLoop [((0 : ℚ), (⟨[500], [1]⟩ : FrameFormants))] initSmooth).F1 := by
    rw [hT0]
    exact List.mem_singleton_self _
  have h := (claim1_amplitude_normalization
    [((0 : ℚ), (⟨[500], [1]⟩ : FrameFormants))] hmag).2.2.2 ⟨0, 500, 1⟩ hp
    (by rw [hg]) (by norm_num)
  exact ⟨hmag, ⟨_, h.1, h.2⟩⟩

end SinewaveSpeech
